import Mathlib

/-!
# Verification of the koto parser and runtime-string excerpts

Shallow embedding of the parts of the koto repository that the checked
claims are about:

* `Koto.FrameRs` — the parse-time `Frame` bookkeeping from
  `core/parser/src/parser.rs` (capture analysis, claims about
  `add_nested_accessed_non_locals` and the `Vec::from_iter` over the
  `accessed_non_locals` hash set).
* `Koto.ParserRs` — the expression-context machinery, the string-escape
  handling, the Pratt operator-precedence loop and map-key parsing from
  `core/parser/src/parser.rs`.
* `Koto.StringRs` — the `KString` slice type from
  `core/runtime/src/types/string.rs`.

Rust `HashSet<u32>` values are modelled as `Finset ℕ`; `u32` arithmetic
that can overflow is modelled with explicit `% 2 ^ 32`.
-/

deriving instance DecidableEq for Except

namespace Koto.FrameRs

/-- Parse-time frame, from `struct Frame` in `core/parser/src/parser.rs`.
The Rust `HashSet<u32>` fields are modelled as `Finset ℕ`. -/
structure Frame where
  contains_yield : Bool
  ids_assigned_in_frame : Finset ℕ
  accessed_non_locals : Finset ℕ
  pending_accesses : Finset ℕ
  pending_assignments : Finset ℕ
  deriving DecidableEq

/-- `Frame::default()` -/
def Frame.default : Frame :=
  { contains_yield := false
    ids_assigned_in_frame := ∅
    accessed_non_locals := ∅
    pending_accesses := ∅
    pending_assignments := ∅ }

/-- `Frame::local_count` -/
def Frame.local_count (f : Frame) : ℕ :=
  f.ids_assigned_in_frame.card

/-- `Frame::add_id_access` -/
def Frame.add_id_access (f : Frame) (id : ℕ) : Frame :=
  { f with pending_accesses := insert id f.pending_accesses }

/-- `Frame::add_local_id_assignment` -/
def Frame.add_local_id_assignment (f : Frame) (id : ℕ) : Frame :=
  { f with
    pending_assignments := insert id f.pending_assignments
    pending_accesses := f.pending_accesses.erase id }

/-- `Frame::add_nested_accessed_non_locals`: for each id in the nested
frame's `accessed_non_locals`, call `add_id_access` on `self` unless the
id is in `self.pending_assignments`.  The loop over the hash set inserts
into `pending_accesses`; insertion order is irrelevant for the resulting
set, so the loop is rendered as a set union. -/
def Frame.add_nested_accessed_non_locals (f : Frame) (nested_frame : Frame) : Frame :=
  { f with
    pending_accesses :=
      f.pending_accesses ∪
        nested_frame.accessed_non_locals.filter (fun id => id ∉ f.pending_assignments) }

/-- `Frame::finalize_id_accesses`: pending accesses that are not locally
assigned become non-locals, and pending assignments are flushed into
`ids_assigned_in_frame`; both pending sets are drained. -/
def Frame.finalize_id_accesses (f : Frame) : Frame :=
  { f with
    accessed_non_locals :=
      f.accessed_non_locals ∪
        (f.pending_accesses.filter (fun id => id ∉ f.ids_assigned_in_frame))
    ids_assigned_in_frame := f.ids_assigned_in_frame ∪ f.pending_assignments
    pending_accesses := ∅
    pending_assignments := ∅ }

/-- The parent frame of the C3 counterexample: an id (index 0) is already
a local of the frame (`ids_assigned_in_frame`), and no assignment is
pending. This is the parent's state after parsing `x = 1` and while
parsing `g = |y| x` if `add_local_id_assignment` had not yet run for `g`;
with `g` pending the state differs only in `pending_assignments = {1}`,
which does not change the outcome for id 0. -/
def parentWithLocal : Frame :=
  { contains_yield := false
    ids_assigned_in_frame := {0}
    accessed_non_locals := ∅
    pending_accesses := ∅
    pending_assignments := {1} }

/-- The nested frame of the C3 counterexample: it accessed id 0 as a
non-local. -/
def nestedAccessingZero : Frame :=
  { contains_yield := false
    ids_assigned_in_frame := ∅
    accessed_non_locals := {0}
    pending_accesses := ∅
    pending_assignments := ∅ }

/-- The data recorded in a `Node::Function` by the tail of
`Parser::parse_function` (parser.rs, after the nested frame is popped), as
far as it depends on the popped `function_frame`:
`local_count`, `accessed_non_locals` and `is_generator`. -/
structure FunctionNodeData where
  local_count : ℕ
  accessed_non_locals : List ℕ
  is_generator : Bool
  deriving DecidableEq

/-- `l` is a possible iteration order of the Rust `HashSet` holding the
elements of `s`.  `std::collections::HashSet` iteration yields each element
exactly once, in an order that is unspecified and varies between hasher
instances (`RandomState` is freshly seeded per set), so the order is a
parameter of the model rather than a function of the set. -/
def IsHashIterOrder (s : Finset ℕ) (l : List ℕ) : Prop :=
  l.Nodup ∧ l.toFinset = s

instance (s : Finset ℕ) (l : List ℕ) : Decidable (IsHashIterOrder s l) := by
  unfold IsHashIterOrder; infer_instance

/-- The `Node::Function` payload built by `Parser::parse_function`:
`local_count` is the popped frame's local count,
`accessed_non_locals` is `Vec::from_iter(function_frame.accessed_non_locals)`
(the hash set's elements in iteration order `iter_order`), and
`is_generator` is the popped frame's `contains_yield`. -/
def makeFunctionNode (function_frame : Frame) (iter_order : List ℕ) : FunctionNodeData :=
  { local_count := function_frame.local_count
    accessed_non_locals := iter_order
    is_generator := function_frame.contains_yield }

/-- A popped function frame with two accessed non-locals, as produced for
example by parsing `|| x + y` at the top level: both `x` and `y` (constant
indices 0 and 1) are accessed and not locally assigned. -/
def frameWithTwoNonLocals : Frame :=
  { contains_yield := false
    ids_assigned_in_frame := ∅
    accessed_non_locals := {0, 1}
    pending_accesses := ∅
    pending_assignments := ∅ }

end Koto.FrameRs

namespace Koto.ParserRs

/-- The lexer token kinds appearing in the modelled fragment of the parser
(`koto_lexer::Token`).  The lexer itself is an external collaborator of the
spec'd core; only the token kinds that the embedded parser routines
inspect are included. -/
inductive Token
  | whitespace | newLine | newLineIndented | commentSingle | commentMulti
  | id | number | singleQuote | doubleQuote | stringLiteral | dollar
  | assign | colon | comma | dot | at
  | roundOpen | roundClose | squareOpen | squareClose | curlyOpen | curlyClose
  | range | rangeInclusive
  | function
  | not
  | add | subtract | multiply | divide | remainder
  | addAssign | subtractAssign | multiplyAssign | divideAssign | remainderAssign
  | equal | notEqual | greater | greaterOrEqual | less | lessOrEqual
  | and | or | pipe
  deriving DecidableEq

/-- Modelled from the spec: `koto_lexer::Token::is_whitespace` (the lexer is
an external collaborator and its source is not part of the excerpts).  Per
the spec's data model, "Whitespace, newlines ... and comments are preserved
as distinct tokens", and the parser's `consume_until_token_with_context`
documents itself as "Consumes whitespace, comments, and newlines", while
skipping `is_whitespace() || is_newline()` tokens; so `is_whitespace`
covers whitespace and both comment kinds, and `is_newline` covers the two
newline kinds (matching the explicit skip list in
`peek_token_with_context`). -/
def Token.is_whitespace : Token → Bool
  | .whitespace | .commentSingle | .commentMulti => true
  | _ => false

/-- Modelled from the spec: `koto_lexer::Token::is_newline`; see
`Token.is_whitespace`. -/
def Token.is_newline : Token → Bool
  | .newLine | .newLineIndented => true
  | _ => false

/-- `enum Indentation` from parser.rs -/
inductive Indentation
  | flexible
  | equal (n : ℕ)
  | greater
  | greaterThan (n : ℕ)
  | greaterOrEqual (n : ℕ)
  deriving DecidableEq

/-- `struct ExpressionContext` from parser.rs -/
structure ExpressionContext where
  allow_space_separated_call : Bool
  allow_linebreaks : Bool
  allow_map_block : Bool
  expected_indentation : Indentation
  deriving DecidableEq

/-- `ExpressionContext::permissive` -/
def ExpressionContext.permissive : ExpressionContext :=
  { allow_space_separated_call := true
    allow_linebreaks := true
    allow_map_block := false
    expected_indentation := .greater }

/-- `ExpressionContext::restricted` -/
def ExpressionContext.restricted : ExpressionContext :=
  { allow_space_separated_call := false
    allow_linebreaks := false
    allow_map_block := false
    expected_indentation := .greater }

/-- `ExpressionContext::inline` -/
def ExpressionContext.inline : ExpressionContext :=
  { allow_space_separated_call := true
    allow_linebreaks := false
    allow_map_block := false
    expected_indentation := .greater }

/-- `ExpressionContext::start_new_expression` -/
def ExpressionContext.start_new_expression (c : ExpressionContext) : ExpressionContext :=
  { allow_space_separated_call := true
    allow_linebreaks := c.allow_linebreaks
    allow_map_block := false
    expected_indentation := .greater }

/-- `ExpressionContext::braced_items_start` -/
def ExpressionContext.braced_items_start : ExpressionContext :=
  { allow_space_separated_call := true
    allow_linebreaks := true
    allow_map_block := false
    expected_indentation := .flexible }

/-- `ExpressionContext::braced_items_continued` -/
def ExpressionContext.braced_items_continued : ExpressionContext :=
  { allow_space_separated_call := false
    allow_linebreaks := true
    allow_map_block := false
    expected_indentation := .flexible }

/-- `ExpressionContext::lookup_start` -/
def ExpressionContext.lookup_start (c : ExpressionContext) : ExpressionContext :=
  { allow_space_separated_call := c.allow_space_separated_call
    allow_linebreaks := c.allow_linebreaks
    allow_map_block := false
    expected_indentation :=
      match c.expected_indentation with
      | .flexible | .equal _ => .greater
      | other => other }

/-- `ExpressionContext::with_expected_indentation` -/
def ExpressionContext.with_expected_indentation
    (c : ExpressionContext) (expected_indentation : Indentation) : ExpressionContext :=
  { c with expected_indentation := expected_indentation }

/-- `AstBinaryOp` (from the koto_parser AST) -/
inductive AstBinaryOp
  | add | subtract | multiply | divide | remainder
  | addAssign | subtractAssign | multiplyAssign | divideAssign | remainderAssign
  | equal | notEqual | greater | greaterOrEqual | less | lessOrEqual
  | and | or | pipe
  deriving DecidableEq

/-- `AstUnaryOp` -/
inductive AstUnaryOp
  | negate | not
  deriving DecidableEq

/-- `QuotationMark` -/
inductive QuotationMark
  | single | double
  deriving DecidableEq

/-- `StringNode`: a literal fragment (constant-pool index) or an
interpolated expression (AST index). -/
inductive StringNode
  | literal (constIdx : ℕ)
  | expr (astIdx : ℕ)
  deriving DecidableEq

/-- `AstString` -/
structure AstString where
  quotation_mark : QuotationMark
  nodes : List StringNode
  deriving DecidableEq

/-- `MetaKeyId` (from koto_parser) -/
inductive MetaKeyId
  | add | subtract | multiply | divide | remainder
  | addAssign | subtractAssign | multiplyAssign | divideAssign | remainderAssign
  | less | lessOrEqual | greater | greaterOrEqual | equal | notEqual
  | not | display | iterator | next | nextBack | negate | type | base
  | main | tests | preTest | postTest | test | named | index | call
  deriving DecidableEq

/-- The AST node variants produced by the modelled parser fragment.
References between nodes are indices into the flat node vector, as in the
source.  (Node variants outside the fragment — maps, lookups, loops,
functions — are not constructible here.) -/
inductive Node
  | id (constIdx : ℕ)
  | str (s : AstString)
  | namedCall (id : ℕ) (args : List ℕ)
  | unaryOp (op : AstUnaryOp) (value : ℕ)
  | binaryOp (op : AstBinaryOp) (lhs rhs : ℕ)
  | assign (target expression : ℕ)
  | multiAssign (targets : List ℕ) (expression : ℕ)
  | tuple (elements : List ℕ)
  | tempTuple (elements : List ℕ)
  deriving DecidableEq

/-- `MapKey` from parser.rs -/
inductive MapKey
  | id (constIdx : ℕ)
  | str (s : AstString)
  | meta (key : MetaKeyId) (name : Option ℕ)
  deriving DecidableEq

/-- One token as delivered by the lexer: the token kind, its source line,
the indentation of its line, and its source slice (used by
`lexer.slice()`). -/
structure LexedToken where
  token : Token
  line : ℕ
  indent : ℕ
  slice : String
  deriving DecidableEq

/-- The parser state threaded through the embedded routines: the remaining
lexer output, the position of the most recently consumed token
(`current_line_number` / `current_indent` / `lexer.slice()`), the constant
pool, the current frame (the fragment parses single-frame programs, so the
frame stack is a single frame), and the AST node vector. -/
structure PState where
  tokens : List LexedToken
  line : ℕ
  indent : ℕ
  slice : String
  constants : List String
  frame : Koto.FrameRs.Frame
  ast : List Node
  deriving DecidableEq

/-- Modelled from the spec: `ConstantPoolBuilder::add_string`
(core/parser/src/constant_pool.rs is not among the excerpts).  "Constant
pool: append-only table of unique strings ...; String interning is by
value."  Returns the index of an existing equal entry, or appends the
string.  (The capacity-overflow error is unreachable for the finite inputs
considered here.) -/
def PState.add_string_constant (st : PState) (s : String) : ℕ × PState :=
  match st.constants.indexOf? s with
  | some i => (i, st)
  | none => (st.constants.length, { st with constants := st.constants ++ [s] })

/-- `Parser::push_node` (spans are not modelled); `Ast::push` appends and
returns the new node's index. -/
def PState.push_node (st : PState) (n : Node) : ℕ × PState :=
  (st.ast.length, { st with ast := st.ast ++ [n] })

/-- Update the frame at the top of the frame stack (`Parser::frame_mut`). -/
def PState.modify_frame (st : PState) (f : Koto.FrameRs.Frame → Koto.FrameRs.Frame) : PState :=
  { st with frame := f st.frame }

/-- `Parser::peek_token_n` -/
def PState.peek_token_n (st : PState) (n : ℕ) : Option Token :=
  (st.tokens.get? n).map (·.token)

/-- `Parser::peek_token` -/
def PState.peek_token (st : PState) : Option Token :=
  st.peek_token_n 0

/-- `Parser::consume_token` (`lexer.next()`): consumes one token,
updating the current position and slice. -/
def PState.consume_token (st : PState) : Option Token × PState :=
  match st.tokens with
  | [] => (none, st)
  | t :: rest =>
    (some t.token, { st with tokens := rest, line := t.line, indent := t.indent, slice := t.slice })

/-- Splits the lexer output into its maximal prefix of
whitespace/comment/newline tokens and the rest (the skipped prefix is what
the `consume_*_with_context` loops run through). -/
def skipWsAndNewlines : List LexedToken → List LexedToken × List LexedToken
  | [] => ([], [])
  | t :: rest =>
    if t.token.is_whitespace || t.token.is_newline then
      let (skipped, remaining) := skipWsAndNewlines rest
      (t :: skipped, remaining)
    else ([], t :: rest)

/-- Position update after consuming a list of tokens: the position of the
last consumed token, if any. -/
def PState.after_consuming (st : PState) (consumed : List LexedToken) : PState :=
  match consumed.getLast? with
  | none => st
  | some t => { st with line := t.line, indent := t.indent, slice := t.slice }

/-- `PeekInfo` from parser.rs -/
structure PeekInfo where
  token : Token
  line : ℕ
  indent : ℕ
  peek_count : ℕ
  deriving DecidableEq

/-- Loop body of `Parser::peek_token_with_context`: skips
whitespace/newline/comment tokens, and returns the next real token only if
its indentation satisfies the context. -/
def peekTokenWithContextAux (context : ExpressionContext) (start_line start_indent : ℕ) :
    List LexedToken → ℕ → Option PeekInfo
  | [], _ => none
  | t :: rest, peek_count =>
    match t.token with
    | .whitespace | .newLine | .newLineIndented | .commentMulti | .commentSingle =>
      peekTokenWithContextAux context start_line start_indent rest (peek_count + 1)
    | token =>
      if t.line = start_line then
        some { token := token, line := start_line, indent := start_indent, peek_count := peek_count }
      else if context.allow_linebreaks then
        let peek_info : PeekInfo :=
          { token := token, line := t.line, indent := t.indent, peek_count := peek_count }
        match context.expected_indentation with
        | .greaterThan expected_indent =>
          if t.indent > expected_indent then some peek_info else none
        | .greaterOrEqual expected_indent =>
          if t.indent ≥ expected_indent then some peek_info else none
        | .equal expected_indent =>
          if t.indent = expected_indent then some peek_info else none
        | .greater =>
          if t.indent > start_indent then some peek_info else none
        | .flexible => some peek_info
      else none

/-- `Parser::peek_token_with_context` -/
def PState.peek_token_with_context (st : PState) (context : ExpressionContext) : Option PeekInfo :=
  peekTokenWithContextAux context st.line st.indent st.tokens 0

/-- `Parser::consume_token_with_context`: consumes tokens until the next
non-whitespace, non-newline token (consuming it too).  If the consumed
token is on a later line than the starting position, the context allows
linebreaks, and its expected indentation is `Greater`, then the returned
context expects `Equal` of the observed indentation and allows map blocks;
otherwise the context is returned unchanged. -/
def PState.consume_token_with_context (st : PState) (context : ExpressionContext) :
    Option (Token × ExpressionContext) × PState :=
  let start_line := st.line
  match skipWsAndNewlines st.tokens with
  | (skipped, []) => (none, { st.after_consuming skipped with tokens := [] })
  | (_, t :: rest) =>
    let is_indented_block :=
      t.line > start_line ∧ context.allow_linebreaks = true ∧
        context.expected_indentation = .greater
    let new_context :=
      if is_indented_block then
        { context with expected_indentation := .equal t.indent, allow_map_block := true }
      else context
    (some (t.token, new_context),
      { st with tokens := rest, line := t.line, indent := t.indent, slice := t.slice })

/-- `Parser::consume_until_token_with_context`: like
`consume_token_with_context` but leaves the found token unconsumed
(peeking its line and indent), returning only the updated context. -/
def PState.consume_until_token_with_context (st : PState) (context : ExpressionContext) :
    Option ExpressionContext × PState :=
  let start_line := st.line
  match skipWsAndNewlines st.tokens with
  | (skipped, []) => (none, { st.after_consuming skipped with tokens := [] })
  | (skipped, t :: rest) =>
    let is_indented_block :=
      t.line > start_line ∧ context.allow_linebreaks = true ∧
        context.expected_indentation = .greater
    let new_context :=
      if is_indented_block then
        { context with expected_indentation := .equal t.indent, allow_map_block := true }
      else context
    (some new_context, { st.after_consuming skipped with tokens := t :: rest })

/-- Splits the lexer output at the next non-whitespace token on the same
line (comments count as whitespace, newline tokens do not). -/
def skipWsOnly : List LexedToken → List LexedToken × List LexedToken
  | [] => ([], [])
  | t :: rest =>
    if t.token.is_whitespace then
      let (skipped, remaining) := skipWsOnly rest
      (t :: skipped, remaining)
    else ([], t :: rest)

/-- `Parser::peek_next_token_on_same_line` -/
def PState.peek_next_token_on_same_line (st : PState) : Option Token :=
  ((skipWsOnly st.tokens).2.head?).map (·.token)

/-- `Parser::consume_next_token_on_same_line`: consumes whitespace on the
same line, then consumes and returns the next token. -/
def PState.consume_next_token_on_same_line (st : PState) : Option Token × PState :=
  match skipWsOnly st.tokens with
  | (skipped, []) => (none, { st.after_consuming skipped with tokens := [] })
  | (_, t :: rest) =>
    (some t.token, { st with tokens := rest, line := t.line, indent := t.indent, slice := t.slice })

/-- `Parser::consume_until_next_token_on_same_line`: consumes whitespace on
the same line, leaving the next token unconsumed. -/
def PState.consume_until_next_token_on_same_line (st : PState) : PState :=
  match skipWsOnly st.tokens with
  | (skipped, remaining) => { st.after_consuming skipped with tokens := remaining }

/-- `MIN_PRECEDENCE_AFTER_PIPE`: the first operator precedence above the
pipe operator; call arguments are parsed with this minimum precedence so
that `f g >> x` parses as `(f g) >> x`. -/
def MIN_PRECEDENCE_AFTER_PIPE : ℕ := 3

/-- `operator_precedence` from parser.rs: `(left, right)` binding
priorities; `right < left` marks right-associativity. -/
def operator_precedence : Token → Option (ℕ × ℕ)
  | .pipe => some (1, 2)
  | .addAssign | .subtractAssign => some (4, MIN_PRECEDENCE_AFTER_PIPE)
  | .multiplyAssign | .divideAssign | .remainderAssign => some (6, 5)
  | .or => some (7, 8)
  | .and => some (9, 10)
  | .equal | .notEqual => some (12, 11)
  | .greater | .greaterOrEqual | .less | .lessOrEqual => some (14, 13)
  | .add | .subtract => some (15, 16)
  | .multiply | .divide | .remainder => some (17, 18)
  | _ => none

/-- The `SyntaxError` kinds reachable in the modelled fragment. -/
inductive SyntaxError
  | asciiEscapeCodeOutOfRange
  | unexpectedCharInNumericEscapeCode
  | unterminatedNumericEscapeCode
  | unicodeEscapeCodeOutOfRange
  | unexpectedEscapeInString
  | unterminatedString
  | unexpectedToken
  | unexpectedTokenAfterDollarInString
  | expectedStringPlaceholderEnd
  | expectedExpression
  | expectedAssignmentTarget
  | expectedTestName
  | expectedMetaId
  | unexpectedMetaKey
  deriving DecidableEq

/-- The `InternalError` kinds reachable in the modelled fragment;
`unwrapFailed` stands for a Rust `unwrap()`/`unreachable!()` panic site. -/
inductive InternalError
  | missingAssignmentTarget
  | unexpectedToken
  | unwrapFailed
  deriving DecidableEq

/-- The `ExpectedIndentation` error kinds reachable in the modelled
fragment. -/
inductive ExpectedIndentationKind
  | rhsExpression
  | assignmentExpression
  deriving DecidableEq

/-- Parser errors.  `notModelled` marks the boundary of the embedded
fragment: a construct of the full grammar (tuples, lists, braced maps,
lookups, ranges, functions, numbers, meta expressions, braceless map
bodies) whose parsing routine is not part of this embedding.  The claims'
inputs never reach these branches.  `outOfFuel` is the fuel bound of the
mutual recursion; every theorem below supplies enough fuel. -/
inductive PErr
  | syntaxError (e : SyntaxError)
  | internal (e : InternalError)
  | indentation (e : ExpectedIndentationKind)
  | notModelled
  | outOfFuel
  deriving DecidableEq

/-- `char::is_ascii_hexdigit` -/
def isAsciiHexdigit (c : Char) : Bool :=
  c.isDigit || (decide ('a' ≤ c) && decide (c ≤ 'f')) || (decide ('A' ≤ c) && decide (c ≤ 'F'))

/-- `char::to_digit(16)` on a character satisfying `isAsciiHexdigit` -/
def hexValue (c : Char) : ℕ :=
  if c.isDigit then c.toNat - '0'.toNat
  else if decide ('a' ≤ c) && decide (c ≤ 'f') then c.toNat - 'a'.toNat + 10
  else c.toNat - 'A'.toNat + 10

/-- `char::is_whitespace` (Rust std): the Unicode `White_Space` property. -/
def rustIsWhitespace (c : Char) : Bool :=
  let n := c.toNat
  decide ((0x09 ≤ n ∧ n ≤ 0x0d) ∨ n = 0x20 ∨ n = 0x85 ∨ n = 0xa0 ∨ n = 0x1680 ∨
    (0x2000 ≤ n ∧ n ≤ 0x200a) ∨ n = 0x2028 ∨ n = 0x2029 ∨ n = 0x202f ∨ n = 0x205f ∨ n = 0x3000)

/-- `char::from_u32`: succeeds exactly on scalar values (not a surrogate,
at most 0x10FFFF). -/
def char_from_u32 (n : ℕ) : Option Char :=
  if n < 0xd800 ∨ (0xe000 ≤ n ∧ n < 0x110000) then some (Char.ofNat n) else none

/-- The hex-digit loop of the `\u{...}` escape in `Parser::parse_string`:
consumes hex digits, accumulating `code *= 16; code += digit` in Rust
`u32` arithmetic — modelled with an explicit wrap-around `% 2 ^ 32`
(release builds wrap on overflow; debug builds panic). -/
def takeHexDigits : List Char → ℕ → ℕ × List Char
  | [], code => (code, [])
  | c :: rest, code =>
    if isAsciiHexdigit c then takeHexDigits rest ((code * 16 + hexValue c) % 2 ^ 32)
    else (code, c :: rest)

/-- The escape-processing loop over a `StringLiteral` slice in
`Parser::parse_string` (the `while let Some(c) = chars.next()` loop):
builds the literal's characters, handling `\n \r \t \\ \' \" \$`, escaped
line breaks (a backslash before a line break swallows following
whitespace), `\xHH` (two hex digits, value at most 0x7F) and `\u{H..}`
(braced hex digits forming a `u32`, checked with `char::from_u32`); any
other escaped character is an error.  Every recursive step strictly
shrinks the character list, so a fuel equal to the input length is always
sufficient (the call site passes exactly that). -/
def processEscapes (fuel : ℕ) (chars : List Char) : Except PErr (List Char) :=
  match chars with
  | [] => .ok []
  | _ =>
    match fuel with
    | 0 => .error .outOfFuel
    | fuel + 1 =>
      match chars with
      | [] => .ok []
      | '\\' :: rest =>
        match rest with
        | c :: rest2 =>
          if c = '\n' ∨ c = '\r' then
            processEscapes fuel (rest2.dropWhile rustIsWhitespace)
          else if c = '\\' then (processEscapes fuel rest2).map (fun l => '\\' :: l)
          else if c = '\'' then (processEscapes fuel rest2).map (fun l => '\'' :: l)
          else if c = '$' then (processEscapes fuel rest2).map (fun l => '$' :: l)
          else if c = '"' then (processEscapes fuel rest2).map (fun l => '"' :: l)
          else if c = 'n' then (processEscapes fuel rest2).map (fun l => '\n' :: l)
          else if c = 'r' then (processEscapes fuel rest2).map (fun l => '\r' :: l)
          else if c = 't' then (processEscapes fuel rest2).map (fun l => '\t' :: l)
          else if c = 'x' then
            match rest2 with
            | c1 :: rest3 =>
              if isAsciiHexdigit c1 then
                match rest3 with
                | c2 :: rest4 =>
                  if isAsciiHexdigit c2 then
                    let d := hexValue c1 * 16 + hexValue c2
                    if d ≤ 0x7f then (processEscapes fuel rest4).map (fun l => Char.ofNat d :: l)
                    else .error (.syntaxError .asciiEscapeCodeOutOfRange)
                  else .error (.syntaxError .unexpectedCharInNumericEscapeCode)
                | [] => .error (.syntaxError .unterminatedNumericEscapeCode)
              else .error (.syntaxError .unexpectedCharInNumericEscapeCode)
            | [] => .error (.syntaxError .unterminatedNumericEscapeCode)
          else if c = 'u' then
            match rest2 with
            | '{' :: rest3 =>
              match takeHexDigits rest3 0 with
              | (code, rest4) =>
                match rest4 with
                | '}' :: rest5 =>
                  match char_from_u32 code with
                  | some ch => (processEscapes fuel rest5).map (fun l => ch :: l)
                  | none => .error (.syntaxError .unicodeEscapeCodeOutOfRange)
                | _ :: _ => .error (.syntaxError .unexpectedCharInNumericEscapeCode)
                | [] => .error (.syntaxError .unterminatedNumericEscapeCode)
            | _ :: _ => .error (.syntaxError .unexpectedCharInNumericEscapeCode)
            | [] => .error (.syntaxError .unterminatedNumericEscapeCode)
          else .error (.syntaxError .unexpectedEscapeInString)
        | [] => .error (.syntaxError .unexpectedEscapeInString)
      | c :: rest => (processEscapes fuel rest).map (fun l => c :: l)

/-- `TempResult` from parser.rs -/
inductive TempResult
  | no | yes
  deriving DecidableEq

/-- The operator-token → `AstBinaryOp` mapping inside
`parse_expression_continued`; the token list matches the operators in
`operator_precedence` (the source's `unreachable!()` corresponds to
`none`). -/
def token_to_ast_op : Token → Option AstBinaryOp
  | .add => some .add
  | .subtract => some .subtract
  | .multiply => some .multiply
  | .divide => some .divide
  | .remainder => some .remainder
  | .addAssign => some .addAssign
  | .subtractAssign => some .subtractAssign
  | .multiplyAssign => some .multiplyAssign
  | .divideAssign => some .divideAssign
  | .remainderAssign => some .remainderAssign
  | .equal => some .equal
  | .notEqual => some .notEqual
  | .greater => some .greater
  | .greaterOrEqual => some .greaterOrEqual
  | .less => some .less
  | .lessOrEqual => some .lessOrEqual
  | .and => some .and
  | .or => some .or
  | .pipe => some .pipe
  | _ => none

/-- `Parser::next_token_is_lookup_start` -/
def PState.next_token_is_lookup_start (st : PState) (context : ExpressionContext) : Bool :=
  match st.peek_token with
  | some .dot | some .squareOpen | some .roundOpen => true
  | _ =>
    if context.allow_linebreaks then
      match st.peek_token_with_context context with
      | some peeked => peeked.token = .dot
      | none => false
    else false

/-- `Parser::parse_id` -/
def parse_id (st : PState) (context : ExpressionContext) :
    Option (ℕ × ExpressionContext) × PState :=
  match st.peek_token_with_context context with
  | some info =>
    if info.token = .id then
      match st.consume_token_with_context context with
      | (some (_, id_context), st) =>
        let (constant_index, st) := st.add_string_constant st.slice
        (some (constant_index, id_context), st)
      | (none, st) => (none, st)
    else (none, st)
  | none => (none, st)

/-- The target-noting loop at the start of `Parser::parse_assign_expression`:
each `Node::Id` target records a local assignment in the frame; the
fragment's node type has no `Meta`/`Lookup`/`Wildcard` variants (the
source accepts those unchanged), so every other node is an
`ExpectedAssignmentTarget` error as in the source's catch-all. -/
def note_assignment_targets : List ℕ → PState → Except PErr (List ℕ × PState)
  | [], st => .ok ([], st)
  | e :: rest, st =>
    match st.ast.get? e with
    | some (Node.id id_index) =>
      (note_assignment_targets rest
        (st.modify_frame (fun f => f.add_local_id_assignment id_index))).map
        (fun r => (e :: r.1, r.2))
    | some _ => .error (.syntaxError .expectedAssignmentTarget)
    | none => .error (.internal .unwrapFailed)

/-- `Parser::parse_meta_key` -/
def parse_meta_key (st : PState) : Except PErr (Option (MetaKeyId × Option ℕ) × PState) :=
  if st.peek_next_token_on_same_line ≠ some .at then .ok (none, st)
  else
    let (_, st) := st.consume_next_token_on_same_line
    match st.consume_token with
    | (some .add, st) => .ok (some (.add, none), st)
    | (some .subtract, st) => .ok (some (.subtract, none), st)
    | (some .multiply, st) => .ok (some (.multiply, none), st)
    | (some .divide, st) => .ok (some (.divide, none), st)
    | (some .remainder, st) => .ok (some (.remainder, none), st)
    | (some .addAssign, st) => .ok (some (.addAssign, none), st)
    | (some .subtractAssign, st) => .ok (some (.subtractAssign, none), st)
    | (some .multiplyAssign, st) => .ok (some (.multiplyAssign, none), st)
    | (some .divideAssign, st) => .ok (some (.divideAssign, none), st)
    | (some .remainderAssign, st) => .ok (some (.remainderAssign, none), st)
    | (some .less, st) => .ok (some (.less, none), st)
    | (some .lessOrEqual, st) => .ok (some (.lessOrEqual, none), st)
    | (some .greater, st) => .ok (some (.greater, none), st)
    | (some .greaterOrEqual, st) => .ok (some (.greaterOrEqual, none), st)
    | (some .equal, st) => .ok (some (.equal, none), st)
    | (some .notEqual, st) => .ok (some (.notEqual, none), st)
    | (some .not, st) => .ok (some (.not, none), st)
    | (some .id, st) =>
      match st.slice with
      | "display" => .ok (some (.display, none), st)
      | "iterator" => .ok (some (.iterator, none), st)
      | "next" => .ok (some (.next, none), st)
      | "next_back" => .ok (some (.nextBack, none), st)
      | "negate" => .ok (some (.negate, none), st)
      | "type" => .ok (some (.type, none), st)
      | "base" => .ok (some (.base, none), st)
      | "main" => .ok (some (.main, none), st)
      | "tests" => .ok (some (.tests, none), st)
      | "pre_test" => .ok (some (.preTest, none), st)
      | "post_test" => .ok (some (.postTest, none), st)
      | "test" =>
        match st.consume_next_token_on_same_line with
        | (some .id, st) =>
          let (test_name, st) := st.add_string_constant st.slice
          .ok (some (.test, some test_name), st)
        | (_, _) => .error (.syntaxError .expectedTestName)
      | "meta" =>
        match st.consume_next_token_on_same_line with
        | (some .id, st) =>
          let (id, st) := st.add_string_constant st.slice
          .ok (some (.named, some id), st)
        | (_, _) => .error (.syntaxError .expectedMetaId)
      | _ => .error (.syntaxError .unexpectedMetaKey)
    | (some .squareOpen, st) =>
      match st.consume_token with
      | (some .squareClose, st) => .ok (some (.index, none), st)
      | (_, _) => .error (.syntaxError .unexpectedMetaKey)
    | (some .function, st) =>
      match st.consume_token with
      | (some .function, st) => .ok (some (.call, none), st)
      | (_, _) => .error (.syntaxError .unexpectedMetaKey)
    | (_, _) => .error (.syntaxError .unexpectedMetaKey)

/-- The result of the comma loop in `Parser::parse_expressions`: either the
collected expression list together with the comma flag, or an early return
with an assignment node (the source's `return Ok(Some(next_expression))`
for `Assign`/`MultiAssign`; the `For`/`While`/`Until` variants are outside
the fragment). -/
inductive ExpressionsLoopResult
  | finished (expressions : List ℕ) (encountered_comma : Bool)
  | early (node : ℕ)
  deriving DecidableEq

/-- The signatures of the fueled parser routines, gathered in one record
so that the fuel recursion is a single structural recursion on `ℕ`
(`parseFns`); each routine of the source is a field here and a top-level
wrapper below. -/
structure ParseFns where
  parse_expression :
    ExpressionContext → PState → Except PErr (Option ℕ × PState)
  parse_expression_with_min_precedence :
    ℕ → ExpressionContext → PState → Except PErr (Option ℕ × PState)
  parse_expression_start :
    List ℕ → ℕ → ExpressionContext → PState → Except PErr (Option ℕ × PState)
  parse_expression_continued :
    ℕ → List ℕ → ℕ → ExpressionContext → PState → Except PErr (Option ℕ × PState)
  parse_assign_expression :
    ℕ → List ℕ → ExpressionContext → PState → Except PErr (Option ℕ × PState)
  parse_expressions :
    ExpressionContext → TempResult → PState → Except PErr (Option ℕ × PState)
  parse_expressions_loop :
    List ℕ → Bool → Bool → ℕ → ExpressionContext → PState →
      Except PErr (ExpressionsLoopResult × PState)
  parse_term :
    ExpressionContext → PState → Except PErr (Option ℕ × PState)
  check_for_lookup_after_node :
    ℕ → ExpressionContext → PState → Except PErr (Option ℕ × PState)
  parse_id_expression :
    ExpressionContext → PState → Except PErr (ℕ × PState)
  parse_call_args :
    ExpressionContext → PState → Except PErr (List ℕ × PState)
  parse_call_args_loop :
    List ℕ → ℕ → ExpressionContext → PState → Except PErr (List ℕ × PState)
  parse_string :
    ExpressionContext → PState → Except PErr (Option (AstString × ExpressionContext) × PState)
  parse_string_loop :
    Token → ExpressionContext → List StringNode → PState →
      Except PErr (Option (AstString × ExpressionContext) × PState)
  parse_map_key :
    PState → Except PErr (Option MapKey × PState)

/-- All routines at fuel 0: out of fuel. -/
def parseFnsZero : ParseFns where
  parse_expression := fun _ _ => .error .outOfFuel
  parse_expression_with_min_precedence := fun _ _ _ => .error .outOfFuel
  parse_expression_start := fun _ _ _ _ => .error .outOfFuel
  parse_expression_continued := fun _ _ _ _ _ => .error .outOfFuel
  parse_assign_expression := fun _ _ _ _ => .error .outOfFuel
  parse_expressions := fun _ _ _ => .error .outOfFuel
  parse_expressions_loop := fun _ _ _ _ _ _ => .error .outOfFuel
  parse_term := fun _ _ => .error .outOfFuel
  check_for_lookup_after_node := fun _ _ _ => .error .outOfFuel
  parse_id_expression := fun _ _ => .error .outOfFuel
  parse_call_args := fun _ _ => .error .outOfFuel
  parse_call_args_loop := fun _ _ _ _ => .error .outOfFuel
  parse_string := fun _ _ => .error .outOfFuel
  parse_string_loop := fun _ _ _ _ => .error .outOfFuel
  parse_map_key := fun _ => .error .outOfFuel

/-- One fuel step: the bodies of the source's parsing routines, with every
(mutually) recursive call going through `p`, the routines at one less
fuel.  The bodies are documented at the like-named top-level wrappers
below. -/
def parseFnsStep (p : ParseFns) : ParseFns where
  parse_expression := fun context st =>
    p.parse_expression_with_min_precedence 0 context st
  parse_expression_with_min_precedence := fun min_precedence context st => do
    let (result, st) ← p.parse_expression_start [] min_precedence context st
    match st.peek_next_token_on_same_line with
    | some .range | some .rangeInclusive => .error .notModelled
    | _ => .ok (result, st)
  parse_expression_start := fun previous_expressions min_precedence context st => do
    let entry_indent := st.indent
    let entry_line := st.line
    let expression_start_info := st.peek_token_with_context context
    let (term?, st) ← p.parse_term context st
    match term? with
    | none => .ok (none, st)
    | some expression_start =>
      match expression_start_info with
      | none => .error (.internal .unwrapFailed)
      | some info =>
        let continuation_context :=
          if st.line > entry_line then
            if info.line = entry_line then
              context.with_expected_indentation (.greaterThan entry_indent)
            else
              context.with_expected_indentation (.greaterOrEqual info.indent)
          else context
        p.parse_expression_continued expression_start previous_expressions min_precedence
          continuation_context st
  parse_expression_continued :=
      fun expression_start previous_expressions min_precedence context st =>
    let context1 :=
      match context.expected_indentation with
      | .equal indent => context.with_expected_indentation (.greaterOrEqual indent)
      | .flexible => context.with_expected_indentation (.greaterOrEqual st.indent)
      | _ => context
    do
    let (assigned?, st) ←
      p.parse_assign_expression expression_start previous_expressions context1 st
    match assigned? with
    | some a => .ok (some a, st)
    | none =>
      match st.peek_token_with_context context1 with
      | some next =>
        match operator_precedence next.token with
        | some (left_priority, right_priority) =>
          if left_priority ≥ min_precedence then
            match st.consume_token_with_context context1 with
            | (some (op, context2), st) =>
              if (st.peek_token_with_context context2).isNone then
                .error (.indentation .rhsExpression)
              else
                match st.consume_until_token_with_context context2 with
                | (some context3, st) => do
                  let (rhs?, st) ← p.parse_expression_start [] right_priority context3 st
                  match rhs? with
                  | none => .error (.indentation .rhsExpression)
                  | some rhs =>
                    match token_to_ast_op op with
                    | some ast_op =>
                      let (op_node, st) :=
                        st.push_node (.binaryOp ast_op expression_start rhs)
                      p.parse_expression_continued op_node [] min_precedence context3 st
                    | none => .error (.internal .unwrapFailed)
                | (none, _) => .error (.internal .unwrapFailed)
            | (none, _) => .error (.internal .unwrapFailed)
          else .ok (some expression_start, st)
        | none => .ok (some expression_start, st)
      | none => .ok (some expression_start, st)
  parse_assign_expression := fun lhs previous_lhs context st =>
    match st.peek_token_with_context context with
    | some info =>
      if info.token = .assign then do
        let (targets, st) ← note_assignment_targets (previous_lhs ++ [lhs]) st
        if targets.isEmpty then .error (.internal .missingAssignmentTarget)
        else
          let (_, st) := st.consume_token_with_context context
          let single_target := targets.length = 1
          let temp_result := if single_target then TempResult.no else TempResult.yes
          do
          let (rhs?, st) ← p.parse_expressions .permissive temp_result st
          match rhs? with
          | some rhs =>
            if single_target then
              match targets.head? with
              | some target =>
                let (n, st) := st.push_node (.assign target rhs)
                .ok (some n, st)
              | none => .error (.internal .missingAssignmentTarget)
            else
              let (n, st) := st.push_node (.multiAssign targets rhs)
              .ok (some n, st)
          | none => .error (.indentation .assignmentExpression)
      else .ok (none, st)
    | none => .ok (none, st)
  parse_expressions := fun context temp_result st =>
    let start_line := st.line
    let expression_context := { context with allow_space_separated_call := true }
    do
    let (first?, st) ← p.parse_expression expression_context st
    match first? with
    | none => .ok (none, st)
    | some first => do
      let (res, st) ←
        p.parse_expressions_loop [first] false false start_line expression_context st
      match res with
      | .early node => .ok (some node, st)
      | .finished expressions encountered_comma =>
        let st := st.modify_frame (fun f => f.finalize_id_accesses)
        if expressions.length = 1 ∧ encountered_comma = false then
          .ok (some first, st)
        else
          match temp_result with
          | .no =>
            let (n, st) := st.push_node (.tuple expressions)
            .ok (some n, st)
          | .yes =>
            let (n, st) := st.push_node (.tempTuple expressions)
            .ok (some n, st)
  parse_expressions_loop :=
      fun expressions encountered_comma encountered_linebreak start_line
        expression_context st =>
    if st.peek_next_token_on_same_line = some .comma then
      let (_, st) := st.consume_next_token_on_same_line
      let encountered_comma := true
      let (expression_context, encountered_linebreak) :=
        if encountered_linebreak = false ∧ st.line > start_line then
          (expression_context.with_expected_indentation (.equal st.indent), true)
        else (expression_context, encountered_linebreak)
      do
      let (next?, st) ← p.parse_expression_start expressions 0 expression_context st
      match next? with
      | some next_expression =>
        match st.ast.get? next_expression with
        | some (Node.assign _ _) | some (Node.multiAssign _ _) =>
          .ok (.early next_expression, st)
        | _ =>
          p.parse_expressions_loop (expressions ++ [next_expression]) encountered_comma
            encountered_linebreak start_line expression_context st
      | none =>
        p.parse_expressions_loop expressions encountered_comma encountered_linebreak
          start_line expression_context st
    else .ok (.finished expressions encountered_comma, st)
  parse_term := fun context st =>
    match st.peek_token_with_context context with
    | none => .ok (none, st)
    | some peeked =>
      match peeked.token with
      | .singleQuote | .doubleQuote => do
        let (r, st) ← p.parse_string context st
        match r with
        | some (string, string_context) =>
          if st.peek_token = some .colon then .error .notModelled
          else
            let (string_node, st) := st.push_node (.str string)
            p.check_for_lookup_after_node string_node string_context st
        | none => .error (.internal .unwrapFailed)
      | .id => do
        let (n, st) ← p.parse_id_expression context st
        .ok (some n, st)
      | .roundOpen | .squareOpen | .curlyOpen | .at | .function | .number =>
        .error .notModelled
      | .subtract =>
        (match st.peek_token_n (peeked.peek_count + 1) with
        | some tok =>
          if tok.is_whitespace || tok.is_newline then .ok (none, st)
          else
            match tok with
            | .number => .error .notModelled
            | _ =>
              match st.consume_token_with_context context with
              | (_, st) => do
                let (term?, st) ← p.parse_term .restricted st
                match term? with
                | some term =>
                  let (n, st) := st.push_node (.unaryOp .negate term)
                  .ok (some n, st)
                | none => .error (.syntaxError .expectedExpression)
        | none => .ok (none, st))
      | .not =>
        (match st.consume_token_with_context context with
        | (_, st) => do
          let (e?, st) ← p.parse_expression
            { context with
              allow_space_separated_call := true
              expected_indentation := .greater } st
          match e? with
          | some e =>
            let (n, st) := st.push_node (.unaryOp .not e)
            .ok (some n, st)
          | none => .error (.syntaxError .expectedExpression))
      | _ => .ok (none, st)
  check_for_lookup_after_node := fun node context st =>
    let lookup_context := context.lookup_start
    if st.next_token_is_lookup_start lookup_context then .error .notModelled
    else .ok (some node, st)
  parse_id_expression := fun context st =>
    match parse_id st context with
    | (none, _) => .error (.internal .unexpectedToken)
    | (some (constant_index, id_context), st) =>
      if st.peek_token = some .colon then .error .notModelled
      else
        let st := st.modify_frame (fun f => f.add_id_access constant_index)
        let lookup_context := id_context.lookup_start
        if st.next_token_is_lookup_start lookup_context then .error .notModelled
        else do
          let (args, st) ← p.parse_call_args id_context st
          if args.isEmpty then
            let (n, st) := st.push_node (.id constant_index)
            .ok (n, st)
          else
            let (n, st) := st.push_node (.namedCall constant_index args)
            .ok (n, st)
  parse_call_args := fun context st =>
    if context.allow_space_separated_call then
      let arg_context := { context with expected_indentation := Indentation.greater }
      p.parse_call_args_loop [] st.line arg_context st
    else .ok ([], st)
  parse_call_args_loop := fun args last_arg_line arg_context st =>
    match st.peek_token_with_context arg_context with
    | none => .ok (args, st)
    | some peeked =>
      let new_line := peeked.line > last_arg_line
      let last_arg_line := peeked.line
      let arg_context :=
        if new_line then arg_context.with_expected_indentation (.equal peeked.indent)
        else arg_context
      if ¬ new_line ∧ st.peek_token ≠ some .whitespace then .ok (args, st)
      else do
        let (e?, st) ←
          p.parse_expression_with_min_precedence MIN_PRECEDENCE_AFTER_PIPE arg_context st
        match e? with
        | none => .ok (args, st)
        | some expression =>
          if st.peek_next_token_on_same_line = some .comma then
            let (_, st) := st.consume_next_token_on_same_line
            p.parse_call_args_loop (args ++ [expression]) last_arg_line arg_context st
          else .ok (args ++ [expression], st)
  parse_string := fun context st =>
    match st.peek_token_with_context context with
    | some info =>
      if info.token = .singleQuote ∨ info.token = .doubleQuote then
        match st.consume_token_with_context context with
        | (some (string_quote, string_context), st) =>
          p.parse_string_loop string_quote string_context [] st
        | (none, _) => .error (.internal .unwrapFailed)
      else .ok (none, st)
    | none => .ok (none, st)
  parse_string_loop := fun string_quote string_context nodes st =>
    match st.consume_token with
    | (none, _) => .error (.syntaxError .unterminatedString)
    | (some next_token, st) =>
      match next_token with
      | .stringLiteral =>
        (match processEscapes st.slice.data.length st.slice.data with
        | .error e => .error e
        | .ok literal =>
          let (ci, st) := st.add_string_constant (String.mk literal)
          p.parse_string_loop string_quote string_context (nodes ++ [.literal ci]) st)
      | .dollar =>
        (match st.peek_token with
        | some .id =>
          (match st.consume_token with
          | (_, st) =>
            let (id, st) := st.add_string_constant st.slice
            let st := st.modify_frame (fun f => f.add_id_access id)
            let (id_node, st) := st.push_node (.id id)
            p.parse_string_loop string_quote string_context (nodes ++ [.expr id_node]) st)
        | some .curlyOpen =>
          (match st.consume_token with
          | (_, st) => do
            let (e?, st) ← p.parse_expressions .inline .no st
            match e? with
            | none => .error (.syntaxError .expectedExpression)
            | some expression =>
              match st.consume_token with
              | (some .curlyClose, st) =>
                p.parse_string_loop string_quote string_context
                  (nodes ++ [.expr expression]) st
              | (_, _) => .error (.syntaxError .expectedStringPlaceholderEnd))
        | some _ => .error (.syntaxError .unexpectedTokenAfterDollarInString)
        | none => .error (.syntaxError .unterminatedString))
      | other =>
        if other = string_quote then
          let quotation_mark :=
            if string_quote = Token.singleQuote then QuotationMark.single
            else QuotationMark.double
          if nodes.isEmpty then
            let (ci, st) := st.add_string_constant ""
            .ok (some ({ quotation_mark := quotation_mark, nodes := [.literal ci] },
              string_context), st)
          else
            .ok (some ({ quotation_mark := quotation_mark, nodes := nodes },
              string_context), st)
        else .error (.syntaxError .unexpectedToken)
  parse_map_key := fun st =>
    match parse_id st .restricted with
    | (some (id, _), st) => .ok (some (.id id), st)
    | (none, st) => do
      let (s?, st) ← p.parse_string .restricted st
      match s? with
      | some (string_key, _) => .ok (some (.str string_key), st)
      | none => do
        let (m?, st) ← parse_meta_key st
        match m? with
        | some (meta_key_id, meta_name) => .ok (some (.meta meta_key_id meta_name), st)
        | none => .ok (none, st)

/-- The parser routines at a given fuel: one structural recursion on ℕ. -/
def parseFns : ℕ → ParseFns
  | 0 => parseFnsZero
  | fuel + 1 => parseFnsStep (parseFns fuel)

/-- `Parser::parse_expression` -/
def parse_expression (fuel : ℕ) (context : ExpressionContext) (st : PState) :
    Except PErr (Option ℕ × PState) :=
  (parseFns fuel).parse_expression context st

/-- `Parser::parse_expression_with_min_precedence`; range expressions are
outside the fragment (`notModelled`). -/
def parse_expression_with_min_precedence (fuel : ℕ) (min_precedence : ℕ)
    (context : ExpressionContext) (st : PState) : Except PErr (Option ℕ × PState) :=
  (parseFns fuel).parse_expression_with_min_precedence min_precedence context st

/-- `Parser::parse_expression_start` -/
def parse_expression_start (fuel : ℕ) (previous_expressions : List ℕ) (min_precedence : ℕ)
    (context : ExpressionContext) (st : PState) : Except PErr (Option ℕ × PState) :=
  (parseFns fuel).parse_expression_start previous_expressions min_precedence context st

/-- `Parser::parse_expression_continued`: the Pratt operator loop.  Checks
for an operator via `operator_precedence`, consumes it when its left
priority reaches the minimum precedence, parses the right-hand side with
the operator's right priority, and loops on the built `BinaryOp` node. -/
def parse_expression_continued (fuel : ℕ) (expression_start : ℕ)
    (previous_expressions : List ℕ) (min_precedence : ℕ)
    (context : ExpressionContext) (st : PState) : Except PErr (Option ℕ × PState) :=
  (parseFns fuel).parse_expression_continued expression_start previous_expressions
    min_precedence context st

/-- `Parser::parse_assign_expression` -/
def parse_assign_expression (fuel : ℕ) (lhs : ℕ) (previous_lhs : List ℕ)
    (context : ExpressionContext) (st : PState) : Except PErr (Option ℕ × PState) :=
  (parseFns fuel).parse_assign_expression lhs previous_lhs context st

/-- `Parser::parse_expressions` -/
def parse_expressions (fuel : ℕ) (context : ExpressionContext) (temp_result : TempResult)
    (st : PState) : Except PErr (Option ℕ × PState) :=
  (parseFns fuel).parse_expressions context temp_result st

/-- The `while let Some(Token::Comma)` loop of `Parser::parse_expressions`. -/
def parse_expressions_loop (fuel : ℕ) (expressions : List ℕ)
    (encountered_comma encountered_linebreak : Bool) (start_line : ℕ)
    (expression_context : ExpressionContext) (st : PState) :
    Except PErr (ExpressionsLoopResult × PState) :=
  (parseFns fuel).parse_expressions_loop expressions encountered_comma encountered_linebreak
    start_line expression_context st

/-- `Parser::parse_term`.  The dispatch follows the source; branches whose
parsing routines are outside the fragment (tuples, lists, braced maps,
numbers, meta expressions as terms, function literals) produce
`notModelled`, and every token the source sends to its `_ => Ok(None)`
catch-all produces `none`. -/
def parse_term (fuel : ℕ) (context : ExpressionContext) (st : PState) :
    Except PErr (Option ℕ × PState) :=
  (parseFns fuel).parse_term context st

/-- `Parser::check_for_lookup_after_node` (lookup chains are outside the
fragment, so a detected lookup start is `notModelled`). -/
def check_for_lookup_after_node (fuel : ℕ) (node : ℕ) (context : ExpressionContext)
    (st : PState) : Except PErr (Option ℕ × PState) :=
  (parseFns fuel).check_for_lookup_after_node node context st

/-- `Parser::parse_id_expression`; a following colon (braceless map start)
and lookup chains are outside the fragment. -/
def parse_id_expression (fuel : ℕ) (context : ExpressionContext) (st : PState) :
    Except PErr (ℕ × PState) :=
  (parseFns fuel).parse_id_expression context st

/-- `Parser::parse_call_args`: whitespace-separated call arguments, each
parsed with minimum precedence `MIN_PRECEDENCE_AFTER_PIPE`. -/
def parse_call_args (fuel : ℕ) (context : ExpressionContext) (st : PState) :
    Except PErr (List ℕ × PState) :=
  (parseFns fuel).parse_call_args context st

/-- The argument loop of `Parser::parse_call_args`. -/
def parse_call_args_loop (fuel : ℕ) (args : List ℕ) (last_arg_line : ℕ)
    (arg_context : ExpressionContext) (st : PState) : Except PErr (List ℕ × PState) :=
  (parseFns fuel).parse_call_args_loop args last_arg_line arg_context st

/-- `Parser::parse_string`: consumes the opening quote (if the context
admits one) and delegates to the string-content loop. -/
def parse_string (fuel : ℕ) (context : ExpressionContext) (st : PState) :
    Except PErr (Option (AstString × ExpressionContext) × PState) :=
  (parseFns fuel).parse_string context st

/-- The token loop of `Parser::parse_string`: literal fragments go through
`processEscapes`; `$id` and `${expr}` push interpolation fragments; the
matching quote finishes the string (an empty string becomes a single empty
literal); reaching the end of input is an unterminated-string error. -/
def parse_string_loop (fuel : ℕ) (string_quote : Token) (string_context : ExpressionContext)
    (nodes : List StringNode) (st : PState) :
    Except PErr (Option (AstString × ExpressionContext) × PState) :=
  (parseFns fuel).parse_string_loop string_quote string_context nodes st

/-- `Parser::parse_map_key`: an id, a string, or a meta key. -/
def parse_map_key (fuel : ℕ) (st : PState) : Except PErr (Option MapKey × PState) :=
  (parseFns fuel).parse_map_key st

end Koto.ParserRs

namespace Koto.StringRs

/-- The UTF-8 encoding of a Unicode scalar value (the bytes a Rust `char`
occupies in a `str`). -/
def charUtf8 (c : Char) : List ℕ :=
  let n := c.toNat
  if n < 0x80 then [n]
  else if n < 0x800 then [0xc0 + n / 64, 0x80 + n % 64]
  else if n < 0x10000 then [0xe0 + n / 4096, 0x80 + n / 64 % 64, 0x80 + n % 64]
  else [0xf0 + n / 262144, 0x80 + n / 4096 % 64, 0x80 + n / 64 % 64, 0x80 + n % 64]

/-- The UTF-8 bytes of a string.  A Rust `str` is modelled as its list of
Unicode scalar values; its byte representation is the concatenation of the
scalars' encodings. -/
def utf8Encode (s : List Char) : List ℕ :=
  (s.map charUtf8).flatten

/-- `str::len`: the length in bytes. -/
def strLen (s : List Char) : ℕ :=
  (utf8Encode s).length

/-- `str::is_char_boundary`: `i` is the byte length of some prefix of the
string's scalar values. -/
def is_char_boundary (s : List Char) (i : ℕ) : Bool :=
  (List.range (s.length + 1)).any (fun k => strLen (s.take k) == i)

/-- `str::get(start..stop)`: `Some` exactly when the range is ordered and
both endpoints are code-point boundaries (a boundary is necessarily in
bounds); the value is the byte slice of the range. -/
def str_get (s : List Char) (start stop : ℕ) : Option (List ℕ) :=
  if start ≤ stop ∧ is_char_boundary s start ∧ is_char_boundary s stop then
    some (((utf8Encode s).drop start).take (stop - start))
  else none

/-- `str::get_unchecked(start..stop)`: the byte slice of the range, with no
boundary checks. -/
def str_get_unchecked (s : List Char) (start stop : ℕ) : List ℕ :=
  ((utf8Encode s).drop start).take (stop - start)

/-- `StringSlice` from string.rs: a shared backing string plus byte
bounds.  (`Ptr<str>` sharing is modelled by the backing string value: two
slices share a buffer when their `string` fields are equal as values.) -/
structure StringSlice where
  string : List Char
  start : ℕ
  stop : ℕ
  deriving DecidableEq

/-- `From<Ptr<str>> for StringSlice`: the full range. -/
def StringSlice.from_str (string : List Char) : StringSlice :=
  { string := string, start := 0, stop := strLen string }

/-- `StringSlice::split`: splits the slice at `offset` bytes past its
start, both halves sharing the backing string. -/
def StringSlice.split (sl : StringSlice) (offset : ℕ) : StringSlice × StringSlice :=
  let split_point := sl.start + offset
  ({ string := sl.string, start := sl.start, stop := split_point },
   { string := sl.string, start := split_point, stop := sl.stop })

/-- `enum Inner` from string.rs: the full string, or a slice. -/
inductive Inner
  | full (string : List Char)
  | slice (s : StringSlice)
  deriving DecidableEq

/-- `KString` -/
structure KString where
  inner : Inner
  deriving DecidableEq

/-- `KString::empty` (a clone of the shared empty string, an
`Inner::Full`). -/
def KString.empty : KString :=
  ⟨.full []⟩

/-- The slice view of a `KString` (the `match &self.0` computed at the
start of `KString::with_bounds`): a full string is the slice over its
whole range. -/
def KString.as_slice (ks : KString) : StringSlice :=
  match ks.inner with
  | .full string => StringSlice.from_str string
  | .slice sl => sl

/-- The backing buffer of a `KString` (two `KString`s share storage when
their backing buffers are the same value). -/
def KString.backing (ks : KString) : List Char :=
  match ks.inner with
  | .full string => string
  | .slice sl => sl.string

/-- `KString::new_with_bounds`: checks the bounds with `str::get`. -/
def KString.new_with_bounds (string : List Char) (start stop : ℕ) : Option KString :=
  if (str_get string start stop).isSome then
    some ⟨.slice { string := string, start := start, stop := stop }⟩
  else none

/-- `KString::with_bounds`: offsets the requested bounds by the existing
slice start, requires the new range to end within the existing bounds, and
checks the offset range with `str::get`. -/
def KString.with_bounds (ks : KString) (new_start new_stop : ℕ) : Option KString :=
  let slice := ks.as_slice
  let new_stop := new_stop + slice.start
  let new_start := new_start + slice.start
  if new_stop ≤ slice.stop ∧ (str_get slice.string new_start new_stop).isSome then
    some ⟨.slice { string := slice.string, start := new_start, stop := new_stop }⟩
  else none

/-- `KString::as_str`: the full string's bytes, or the unchecked byte
slice between the stored bounds. -/
def KString.as_str (ks : KString) : List ℕ :=
  match ks.inner with
  | .full string => utf8Encode string
  | .slice sl => str_get_unchecked sl.string sl.start sl.stop

/-- The bounds invariant of a `KString`: its slice view is a valid
`str::get` range of the backing string (trivially true for a full
string). -/
def KString.bounds_valid (ks : KString) : Prop :=
  (str_get ks.as_slice.string ks.as_slice.start ks.as_slice.stop).isSome = true

instance (ks : KString) : Decidable ks.bounds_valid := by
  unfold KString.bounds_valid; infer_instance

/-- The scalar values of a byte range of a string: walk the string
tracking byte positions and keep the characters lying inside the range. -/
def charsOfRange : List Char → ℕ → ℕ → ℕ → List Char
  | [], _, _, _ => []
  | c :: rest, pos, a, b =>
    let next := pos + (charUtf8 c).length
    if a ≤ pos ∧ next ≤ b then c :: charsOfRange rest next a b
    else charsOfRange rest next a b

/-- Modelled from the spec: the grapheme segmentation of the
`unicode_segmentation` crate (an external collaborator; "Grapheme:
user-perceived character per the Unicode text-segmentation algorithm").
The model restricts attention to strings in which every grapheme cluster
is a single Unicode scalar value (no combining marks, ZWJ sequences,
regional-indicator pairs or CR LF), where the segmentation yields one
cluster per scalar; all concrete inputs used by the claims (for example
"héllo" with a precomposed é) are in this class.
`KString.graphemes` iterates the clusters of the slice view (`graphemes`
on the dereferenced `&str`). -/
def KString.graphemes (ks : KString) : List Char :=
  match ks.inner with
  | .full string => string
  | .slice sl => charsOfRange sl.string 0 sl.start sl.stop

/-- `grapheme_indices(true)` over the slice view: byte offsets (relative
to the view) paired with the cluster; see `KString.graphemes` for the
segmentation model. -/
def graphemeIndicesOfChars : List Char → ℕ → List (ℕ × Char)
  | [], _ => []
  | c :: rest, pos => (pos, c) :: graphemeIndicesOfChars rest (pos + (charUtf8 c).length)

/-- `self.grapheme_indices(true)` as used by
`KString::with_grapheme_indices`. -/
def KString.grapheme_indices (ks : KString) : List (ℕ × Char) :=
  graphemeIndicesOfChars ks.graphemes 0

/-- `KString::grapheme_count` -/
def KString.grapheme_count (ks : KString) : ℕ :=
  ks.graphemes.length

/-- `str::len` via `Deref`: the byte length of the slice view. -/
def KString.len (ks : KString) : ℕ :=
  ks.as_str.length

/-- The `for (i, (grapheme_start, grapheme)) in ... .enumerate()` loop of
`KString::with_grapheme_indices`: resolves the grapheme range to byte
offsets, allowing indexing one past the end on either endpoint; stops
(`break`) once the end index is reached. -/
def wgiLoop (start stop : ℕ) : List (ℕ × Char) → ℕ → Option ℕ → Option ℕ × Option ℕ
  | [], _, result_start => (result_start, none)
  | (grapheme_start, grapheme) :: rest, i, result_start =>
    let result_start :=
      if result_start = none ∧ i = start - 1 then
        some (grapheme_start + (charUtf8 grapheme).length)
      else result_start
    if i = stop - 1 then (result_start, some (grapheme_start + (charUtf8 grapheme).length))
    else wgiLoop start stop rest (i + 1) result_start

/-- `KString::with_grapheme_indices`: shared data with bounds resolved
from grapheme indices; out-of-bounds indices produce the empty string. -/
def KString.with_grapheme_indices (ks : KString) (indices_start indices_stop : ℕ) : KString :=
  if indices_start = indices_stop then KString.empty
  else
    let r0 : Option ℕ := if indices_start = 0 then some 0 else none
    match wgiLoop indices_start indices_stop ks.grapheme_indices 0 r0 with
    | (some result_start, some result_stop) =>
      (ks.with_bounds result_start result_stop).getD KString.empty
    | (some result_start, none) =>
      (ks.with_bounds result_start ks.len).getD KString.empty
    | (none, _) => KString.empty

/-- `KString::pop_front` (the `&mut self` mutation is modelled by
returning the popped grapheme together with the updated string). -/
def KString.pop_front (ks : KString) : Option KString × KString :=
  match ks.graphemes.head? with
  | some grapheme =>
    match ks.inner with
    | .full string =>
      let (popped, rest) := (StringSlice.from_str string).split (charUtf8 grapheme).length
      (some ⟨.slice popped⟩, ⟨.slice rest⟩)
    | .slice slice =>
      let (popped, rest) := slice.split (charUtf8 grapheme).length
      (some ⟨.slice popped⟩, ⟨.slice { slice with start := rest.start, stop := rest.stop }⟩)
  | none => (none, ks)

/-- `KString::pop_back` -/
def KString.pop_back (ks : KString) : Option KString × KString :=
  match ks.graphemes.getLast? with
  | some grapheme =>
    match ks.inner with
    | .full string =>
      let (rest, popped) :=
        (StringSlice.from_str string).split (strLen string - (charUtf8 grapheme).length)
      (some ⟨.slice popped⟩, ⟨.slice rest⟩)
    | .slice slice =>
      let (rest, popped) := slice.split ((slice.stop - slice.start) - (charUtf8 grapheme).length)
      (some ⟨.slice popped⟩, ⟨.slice { slice with start := rest.start, stop := rest.stop }⟩)
  | none => (none, ks)

/-- `PartialEq for KString`: equality of the slice views
(`self.as_str() == other.as_str()`). -/
def KString.eq (a b : KString) : Bool :=
  a.as_str = b.as_str

/-- `Hash for KString`: the hasher consumes the slice view
(`self.as_str().hash(state)`); the hasher itself is a parameter. -/
def KString.hashWith (hasher : List ℕ → ℕ) (ks : KString) : ℕ :=
  hasher ks.as_str

end Koto.StringRs

namespace Koto.ParserRs

/-- A token on line 1 with indentation 0 (single-line inputs). -/
def tokL1 (t : Token) (slice : String) : LexedToken :=
  { token := t, line := 1, indent := 0, slice := slice }

/-- A single whitespace token on line 1. -/
def wsTok : LexedToken :=
  tokL1 .whitespace " "

/-- The initial parser state over a token list, positioned at line 1,
indentation 0, with empty constant pool, a fresh frame, and an empty AST. -/
def lineStart (tokens : List LexedToken) : PState :=
  { tokens := tokens, line := 1, indent := 0, slice := "", constants := [],
    frame := Koto.FrameRs.Frame.default, ast := [] }

/-- The token stream of `a + b * c`. -/
def addMulTokens : List LexedToken :=
  [tokL1 .id "a", wsTok, tokL1 .add "+", wsTok, tokL1 .id "b", wsTok,
   tokL1 .multiply "*", wsTok, tokL1 .id "c"]

/-- The token stream of `a == b == c`. -/
def eqChainTokens : List LexedToken :=
  [tokL1 .id "a", wsTok, tokL1 .equal "==", wsTok, tokL1 .id "b", wsTok,
   tokL1 .equal "==", wsTok, tokL1 .id "c"]

/-- The token stream of `f g >> x`. -/
def pipeCallTokens : List LexedToken :=
  [tokL1 .id "f", wsTok, tokL1 .id "g", wsTok, tokL1 .pipe ">>", wsTok, tokL1 .id "x"]

/-- The token stream of the map key `'$x'` followed by a colon: a
single-quoted string key containing the interpolation `$x`. -/
def interpKeyState : PState :=
  lineStart
    [tokL1 .singleQuote "'", tokL1 .dollar "$", tokL1 .id "x", tokL1 .singleQuote "'",
     tokL1 .colon ":"]

/-- A state whose next token is a comma: not a valid map-key start. -/
def commaKeyState : PState :=
  lineStart [tokL1 .comma ","]

/-- A state whose next real token sits on line 2 at indentation 2, after a
newline token: the situation in which `consume_token_with_context` crosses
into an indented block. -/
def indentedBlockState : PState :=
  lineStart
    [{ token := .newLineIndented, line := 2, indent := 2, slice := "" },
     { token := .id, line := 2, indent := 2, slice := "x" }]

/-- The indented token of `indentedBlockState`. -/
def indentedIdToken : LexedToken :=
  { token := .id, line := 2, indent := 2, slice := "x" }

end Koto.ParserRs

namespace Koto.StringRs

/-- The characters of `"héllo"` (é is the precomposed scalar U+00E9). -/
def helloChars : List Char :=
  ['h', 'é', 'l', 'l', 'o']

/-- `"héllo"` as a full (unsliced) KString. -/
def helloKString : KString :=
  ⟨.full helloChars⟩

/-- The slice `"éllo"` of the backing string `"héllo"` (byte bounds 1..6:
é occupies two bytes). -/
def elloSlice : KString :=
  ⟨.slice { string := helloChars, start := 1, stop := 6 }⟩

/-- `"abc"` as a full KString. -/
def abcFull : KString :=
  ⟨.full ['a', 'b', 'c']⟩

/-- `"abc"` as a slice of the distinct backing string `"xabc"`. -/
def abcSliceOfXabc : KString :=
  ⟨.slice { string := ['x', 'a', 'b', 'c'], start := 1, stop := 4 }⟩

/-- The slice `"hé"` of `"héllo"` (byte bounds 0..3), produced by
`new_with_bounds helloChars 0 3`. -/
def heSlice : KString :=
  ⟨.slice { string := helloChars, start := 0, stop := 3 }⟩

/-- The slice `"é"` of `"héllo"` (byte bounds 1..3), the result of
`elloSlice.with_bounds 0 2`. -/
def eAcuteSlice : KString :=
  ⟨.slice { string := helloChars, start := 1, stop := 3 }⟩

/-- A concrete hasher: byte sum (any function of the byte slice works for
the hash-consistency statement). -/
def demoHasher : List ℕ → ℕ :=
  fun l => l.sum

end Koto.StringRs

/-! ## Claim theorems -/

open Koto.FrameRs Koto.ParserRs Koto.StringRs

set_option maxHeartbeats 2000000 in
/-- Claim C1: operator precedence and associativity follow the spec's
table.  `a + b * c` parses as `a + (b * c)`; `a == b == c`
right-associates as `a == (b == c)`; and in `f g >> x` the juxtaposition
call binds tighter than the pipe, producing `(f g) >> x` — the call
argument `g` is parsed with minimum precedence `MIN_PRECEDENCE_AFTER_PIPE`,
which excludes the pipe operator.  Stated as the parse results (root node
index and AST node vector) of the three token streams. -/
theorem koto_c1_operator_precedence :
    (parse_expression 32 .permissive (lineStart addMulTokens)).map
        (fun r => (r.1, r.2.ast)) =
      .ok (some 4, [.id 0, .id 1, .id 2, .binaryOp .multiply 1 2, .binaryOp .add 0 3]) ∧
    (parse_expression 32 .permissive (lineStart eqChainTokens)).map
        (fun r => (r.1, r.2.ast)) =
      .ok (some 4, [.id 0, .id 1, .id 2, .binaryOp .equal 1 2, .binaryOp .equal 0 3]) ∧
    (parse_expression 32 .permissive (lineStart pipeCallTokens)).map
        (fun r => (r.1, r.2.ast)) =
      .ok (some 3, [.id 1, .namedCall 0 [0], .id 2, .binaryOp .pipe 1 2]) := by
  refine ⟨?_, ?_, ?_⟩ <;> decide

/-- Claim C2: when the context allows linebreaks and expects `Greater`
indentation and the next real token is on a later line,
`consume_token_with_context` returns the context upgraded to
`Equal(observed_indent)` with `allow_map_block = true`; in every other
case the context is returned unchanged.  The same holds for
`consume_until_token_with_context`. -/
theorem koto_c2_consume_with_context (context : ExpressionContext) (st : PState)
    (skipped : List LexedToken) (t : LexedToken) (rest : List LexedToken)
    (h : skipWsAndNewlines st.tokens = (skipped, t :: rest)) :
    (t.line > st.line ∧ context.allow_linebreaks = true ∧
        context.expected_indentation = .greater →
      (st.consume_token_with_context context).1 =
        some (t.token,
          { context with
            expected_indentation := .equal t.indent
            allow_map_block := true }) ∧
      (st.consume_until_token_with_context context).1 =
        some
          { context with
            expected_indentation := .equal t.indent
            allow_map_block := true }) ∧
    (¬ (t.line > st.line ∧ context.allow_linebreaks = true ∧
        context.expected_indentation = .greater) →
      (st.consume_token_with_context context).1 = some (t.token, context) ∧
      (st.consume_until_token_with_context context).1 = some context) := by
  constructor
  · intro hc
    constructor
    · simp only [PState.consume_token_with_context, h]
      simp [hc]
    · simp only [PState.consume_until_token_with_context, h]
      simp [hc]
  · intro hc
    constructor
    · simp only [PState.consume_token_with_context, h]
      simp [hc]
    · simp only [PState.consume_until_token_with_context, h]
      simp [hc]

/-- Witness for C2: crossing into an indented block (permissive context,
next real token on line 2 at indentation 2) upgrades the context to
`Equal 2` and sets `allow_map_block`. -/
theorem koto_c2_witness :
    (indentedBlockState.consume_token_with_context .permissive).1 =
      some (.id,
        { ExpressionContext.permissive with
          expected_indentation := .equal 2
          allow_map_block := true }) := by
  have h := koto_c2_consume_with_context .permissive indentedBlockState
    [{ token := .newLineIndented, line := 2, indent := 2, slice := "" }]
    indentedIdToken [] rfl
  exact (h.1 (by decide)).1

/-- Claim C3 counterexample: an identifier that is a local of the parent
frame (`ids_assigned_in_frame`) but not among the parent's pending
assignments IS added to the parent's pending accesses by
`add_nested_accessed_non_locals` — the source's exception tests
`pending_assignments`, not the parent's locals.  Concretely: the parent
has local 0 (for example after the statement `x = 1`), the nested frame
accessed 0 as a non-local, and 0 is added. -/
theorem koto_c3_counterexample :
    0 ∈ Koto.FrameRs.nestedAccessingZero.accessed_non_locals ∧
    0 ∈ Koto.FrameRs.parentWithLocal.ids_assigned_in_frame ∧
    0 ∉ Koto.FrameRs.parentWithLocal.pending_assignments ∧
    0 ∉ Koto.FrameRs.parentWithLocal.pending_accesses ∧
    0 ∈ (Koto.FrameRs.parentWithLocal.add_nested_accessed_non_locals
        Koto.FrameRs.nestedAccessingZero).pending_accesses := by
  decide

/-- Claim C3, amended: when a nested frame is popped, each identifier in
its `accessed_non_locals` is added to the parent's pending accesses except
when it is among the parent's *pending assignments* (the ids being
assigned in the statement currently parsed) — not the parent's locals; an
identifier already assigned in the parent (`ids_assigned_in_frame`) and
not previously recorded as a non-local still never ends up in the parent's
own `accessed_non_locals`, because `finalize_id_accesses` drops pending
accesses of locally assigned ids. -/
theorem koto_c3_amended (parent nested : Koto.FrameRs.Frame) :
    (∀ id, id ∈ nested.accessed_non_locals →
      (id ∈ (parent.add_nested_accessed_non_locals nested).pending_accesses ↔
        id ∉ parent.pending_assignments ∨ id ∈ parent.pending_accesses)) ∧
    (∀ id, id ∈ parent.ids_assigned_in_frame → id ∉ parent.accessed_non_locals →
      id ∉ ((parent.add_nested_accessed_non_locals nested).finalize_id_accesses).accessed_non_locals) := by
  constructor
  · intro id hmem
    simp only [Koto.FrameRs.Frame.add_nested_accessed_non_locals, Finset.mem_union,
      Finset.mem_filter]
    constructor
    · rintro (h | ⟨-, h⟩)
      · exact Or.inr h
      · exact Or.inl h
    · rintro (h | h)
      · exact Or.inr ⟨hmem, h⟩
      · exact Or.inl h
  · intro id hassigned hnon
    simp only [Koto.FrameRs.Frame.finalize_id_accesses,
      Koto.FrameRs.Frame.add_nested_accessed_non_locals, Finset.mem_union, Finset.mem_filter]
    rintro (h | ⟨-, h⟩)
    · exact hnon h
    · exact h hassigned

/-- Witness for the amended C3: at the counterexample frames, id 0 is
added to the pending accesses, and after finalization it is still not a
non-local of the parent. -/
theorem koto_c3_witness :
    0 ∈ (Koto.FrameRs.parentWithLocal.add_nested_accessed_non_locals
        Koto.FrameRs.nestedAccessingZero).pending_accesses ∧
    0 ∉ ((Koto.FrameRs.parentWithLocal.add_nested_accessed_non_locals
        Koto.FrameRs.nestedAccessingZero).finalize_id_accesses).accessed_non_locals := by
  constructor
  · exact ((koto_c3_amended Koto.FrameRs.parentWithLocal
      Koto.FrameRs.nestedAccessingZero).1 0 (by decide)).mpr (Or.inl (by decide))
  · exact (koto_c3_amended Koto.FrameRs.parentWithLocal
      Koto.FrameRs.nestedAccessingZero).2 0 (by decide) (by decide)

/-- Claim C4 counterexample: the `accessed_non_locals` list of a
`Node::Function` is `Vec::from_iter` over a `HashSet`, whose iteration
order is unspecified and varies between invocations (`RandomState` is
freshly seeded per set).  `[0, 1]` and `[1, 0]` are both possible
iteration orders of the same two-element set, and they yield different
node payloads, so two invocations of `Parser::parse` on the same source
need not produce equal `accessed_non_locals` lists. -/
theorem koto_c4_counterexample :
    Koto.FrameRs.IsHashIterOrder
      Koto.FrameRs.frameWithTwoNonLocals.accessed_non_locals [0, 1] ∧
    Koto.FrameRs.IsHashIterOrder
      Koto.FrameRs.frameWithTwoNonLocals.accessed_non_locals [1, 0] ∧
    Koto.FrameRs.makeFunctionNode Koto.FrameRs.frameWithTwoNonLocals [0, 1] ≠
      Koto.FrameRs.makeFunctionNode Koto.FrameRs.frameWithTwoNonLocals [1, 0] := by
  decide

/-- Claim C4, amended: parsing is deterministic up to the iteration order
of each `Function` node's `accessed_non_locals` hash set — for any two
iteration orders of the popped frame's `accessed_non_locals`, the
resulting `Function` payloads agree on `local_count` and `is_generator`,
and their `accessed_non_locals` lists are permutations of each other
(equal as sets).  All remaining steps of the embedded parser are pure
functions of the source, hence invocation-independent. -/
theorem koto_c4_amended (f : Koto.FrameRs.Frame) (o1 o2 : List ℕ)
    (h1 : Koto.FrameRs.IsHashIterOrder f.accessed_non_locals o1)
    (h2 : Koto.FrameRs.IsHashIterOrder f.accessed_non_locals o2) :
    (Koto.FrameRs.makeFunctionNode f o1).local_count =
      (Koto.FrameRs.makeFunctionNode f o2).local_count ∧
    (Koto.FrameRs.makeFunctionNode f o1).is_generator =
      (Koto.FrameRs.makeFunctionNode f o2).is_generator ∧
    (Koto.FrameRs.makeFunctionNode f o1).accessed_non_locals.Perm
      (Koto.FrameRs.makeFunctionNode f o2).accessed_non_locals := by
  refine ⟨rfl, rfl, ?_⟩
  exact List.perm_of_nodup_nodup_toFinset_eq h1.1 h2.1 (h1.2.trans h2.2.symm)

/-- Witness for the amended C4 at the counterexample's frame and orders. -/
theorem koto_c4_witness :
    (Koto.FrameRs.makeFunctionNode Koto.FrameRs.frameWithTwoNonLocals [0, 1]).local_count =
      (Koto.FrameRs.makeFunctionNode Koto.FrameRs.frameWithTwoNonLocals [1, 0]).local_count ∧
    (Koto.FrameRs.makeFunctionNode Koto.FrameRs.frameWithTwoNonLocals [0, 1]).is_generator =
      (Koto.FrameRs.makeFunctionNode Koto.FrameRs.frameWithTwoNonLocals [1, 0]).is_generator ∧
    (Koto.FrameRs.makeFunctionNode
      Koto.FrameRs.frameWithTwoNonLocals [0, 1]).accessed_non_locals.Perm
      (Koto.FrameRs.makeFunctionNode
        Koto.FrameRs.frameWithTwoNonLocals [1, 0]).accessed_non_locals :=
  koto_c4_amended Koto.FrameRs.frameWithTwoNonLocals [0, 1] [1, 0] (by decide) (by decide)

/-- Claim C5 (code bug): the `\u{H..}` escape is specified to be accepted
exactly when the digits encode a valid Unicode code point, but the digit
accumulator is a Rust `u32`: for `\u{100000000}` the nine hex digits
encode 2^32 — not a valid code point — yet the accumulator wraps to 0 and
the escape is accepted as U+0000 (builds with overflow checks panic
instead of returning a parser error). -/
theorem koto_c5_escape_overflow :
    processEscapes 13 ['\\', 'u', '{', '1', '0', '0', '0', '0', '0', '0', '0', '0', '}'] =
      .ok [Char.ofNat 0] ∧
    List.foldl (fun acc c => acc * 16 + hexValue c) 0
      ['1', '0', '0', '0', '0', '0', '0', '0', '0'] = 2 ^ 32 ∧
    char_from_u32 (2 ^ 32) = none := by
  refine ⟨by decide, by decide, by decide⟩

/-- Claim C6 counterexample: a string map key containing an interpolation
fragment is accepted by `parse_map_key`, not rejected.  On the tokens of
`'$x':` the parser returns a `MapKey::Str` whose `AstString` holds the
interpolation fragment `Expr` (pointing at the `Id` node for `x`) — no
parse-time check excludes interpolation from string keys. -/
theorem koto_c6_counterexample :
    (parse_map_key 8 interpKeyState).map (fun r => (r.1, r.2.ast, r.2.constants)) =
      .ok (some (.str { quotation_mark := .single, nodes := [.expr 0] }), [.id 0], ["x"]) := by
  decide

/-- Claim C6, amended: map keys are restricted to identifiers, strings and
meta keys — on any state whose next token (under the restricted context)
is neither an id nor a quote, and whose next same-line token is not `@`,
`parse_map_key` yields no key — but a string key may contain `$id` or
`${expr}` interpolation fragments: such keys are accepted at parse time. -/
theorem koto_c6_amended :
    (∀ (fuel : ℕ) (st : PState),
      (∀ pi, st.peek_token_with_context .restricted = some pi →
        pi.token ≠ .id ∧ pi.token ≠ .singleQuote ∧ pi.token ≠ .doubleQuote) →
      st.peek_next_token_on_same_line ≠ some .at →
      parse_map_key (fuel + 2) st = .ok (none, st)) ∧
    (parse_map_key 8 interpKeyState).map (fun r => r.1) =
      .ok (some (.str { quotation_mark := .single, nodes := [.expr 0] })) := by
  constructor
  · intro fuel st htok hat
    have hm : parse_meta_key st = .ok (none, st) := by
      unfold parse_meta_key
      rw [if_pos hat]
    have hid : parse_id st .restricted = (none, st) := by
      unfold parse_id
      cases h : st.peek_token_with_context .restricted with
      | none => simp
      | some pi =>
        obtain ⟨h1, _, _⟩ := htok pi h
        simp [h1]
    have hs : (parseFns (fuel + 1)).parse_string .restricted st = .ok (none, st) := by
      have hstep : parseFns (fuel + 1) = parseFnsStep (parseFns fuel) := rfl
      rw [hstep]
      cases h : st.peek_token_with_context .restricted with
      | none => simp [parseFnsStep, h]
      | some pi =>
        obtain ⟨_, h2, h3⟩ := htok pi h
        simp [parseFnsStep, h, h2, h3]
    have hstep2 : parseFns (fuel + 2) = parseFnsStep (parseFns (fuel + 1)) := rfl
    unfold parse_map_key
    rw [hstep2]
    simp [parseFnsStep, hid, hs, hm, bind, Except.bind]
  · decide

/-- Witness for the amended C6: on a state starting with a comma,
`parse_map_key` yields no key. -/
theorem koto_c6_witness : parse_map_key 3 commaKeyState = .ok (none, commaKeyState) := by
  refine koto_c6_amended.1 1 commaKeyState (fun pi hpi => ?_) (by decide)
  have hc : commaKeyState.peek_token_with_context .restricted =
      some { token := .comma, line := 1, indent := 0, peek_count := 0 } := rfl
  rw [hc] at hpi
  injection hpi with h
  subst h
  decide

namespace Koto.StringRs

/-- A scalar's UTF-8 encoding is at least one byte. -/
theorem charUtf8_length_pos (c : Char) : 0 < (charUtf8 c).length := by
  simp only [charUtf8]
  split_ifs <;> simp

/-- `utf8Encode` on a cons. -/
theorem utf8Encode_cons (c : Char) (l : List Char) :
    utf8Encode (c :: l) = charUtf8 c ++ utf8Encode l := by
  simp [utf8Encode]

/-- `utf8Encode` distributes over append. -/
theorem utf8Encode_append (l1 l2 : List Char) :
    utf8Encode (l1 ++ l2) = utf8Encode l1 ++ utf8Encode l2 := by
  simp [utf8Encode]

/-- Byte length distributes over append. -/
theorem strLen_append (l1 l2 : List Char) :
    strLen (l1 ++ l2) = strLen l1 + strLen l2 := by
  simp [strLen, utf8Encode_append]

/-- Byte length of a cons. -/
theorem strLen_cons (c : Char) (l : List Char) :
    strLen (c :: l) = (charUtf8 c).length + strLen l := by
  simp [strLen, utf8Encode_cons]

/-- Byte length of the empty string. -/
theorem strLen_nil : strLen [] = 0 := rfl

/-- `utf8Encode` of a single scalar. -/
theorem utf8Encode_singleton (c : Char) : utf8Encode [c] = charUtf8 c := by
  simp [utf8Encode]

/-- Byte length of a single scalar. -/
theorem strLen_singleton (c : Char) : strLen [c] = (charUtf8 c).length := by
  simp [strLen, utf8Encode_singleton]

/-- A string has at least as many bytes as scalars. -/
theorem length_le_strLen (s : List Char) : s.length ≤ strLen s := by
  induction s with
  | nil => simp [strLen, utf8Encode]
  | cons c rest ih =>
    rw [strLen_cons]
    have := charUtf8_length_pos c
    simp only [List.length_cons]
    omega

/-- Byte lengths of prefixes are strictly monotone in the scalar count. -/
theorem strLen_take_lt (s : List Char) (i j : ℕ) (hij : i < j) (hj : j ≤ s.length) :
    strLen (s.take i) < strLen (s.take j) := by
  have hdecomp : s.take j = s.take i ++ (s.drop i).take (j - i) := by
    rw [← List.take_add]
    congr 1
    omega
  rw [hdecomp, strLen_append]
  have hlen : ((s.drop i).take (j - i)).length = j - i := by
    rw [List.length_take, List.length_drop]
    omega
  have hpos : 0 < strLen ((s.drop i).take (j - i)) := by
    have := length_le_strLen ((s.drop i).take (j - i))
    omega
  omega

/-- A byte index is a code-point boundary exactly when it is the byte
length of some scalar prefix. -/
theorem is_char_boundary_iff (s : List Char) (i : ℕ) :
    is_char_boundary s i = true ↔ ∃ k, k ≤ s.length ∧ strLen (s.take k) = i := by
  simp [is_char_boundary, List.any_eq_true, List.mem_range, Nat.lt_succ_iff]

/-- `charsOfRange` skips characters lying entirely before the range. -/
theorem charsOfRange_skip_pre (pre : List Char) :
    ∀ (rest : List Char) (pos a b : ℕ), pos + strLen pre ≤ a →
      charsOfRange (pre ++ rest) pos a b = charsOfRange rest (pos + strLen pre) a b := by
  induction pre with
  | nil => intro rest pos a b _; simp [strLen_nil]
  | cons c pre ih =>
    intro rest pos a b h
    rw [strLen_cons] at h
    have hc := charUtf8_length_pos c
    simp only [List.cons_append, charsOfRange, List.append_eq]
    rw [if_neg (by intro hcontra; omega)]
    rw [ih rest (pos + (charUtf8 c).length) a b (by omega)]
    congr 1
    rw [strLen_cons]
    omega

/-- `charsOfRange` keeps characters lying entirely inside the range. -/
theorem charsOfRange_take_mid (mid : List Char) :
    ∀ (rest : List Char) (pos a b : ℕ), a ≤ pos → pos + strLen mid ≤ b →
      charsOfRange (mid ++ rest) pos a b = mid ++ charsOfRange rest (pos + strLen mid) a b := by
  induction mid with
  | nil => intro rest pos a b _ _; simp [strLen_nil]
  | cons c mid ih =>
    intro rest pos a b ha hb
    rw [strLen_cons] at hb
    have hc := charUtf8_length_pos c
    simp only [List.cons_append, charsOfRange, List.append_eq]
    rw [if_pos ⟨ha, by omega⟩]
    rw [ih rest (pos + (charUtf8 c).length) a b (by omega) (by omega)]
    have harith : pos + (charUtf8 c).length + strLen mid = pos + strLen (c :: mid) := by
      rw [strLen_cons]
      omega
    rw [harith]

/-- `charsOfRange` drops characters lying at or after the range end. -/
theorem charsOfRange_skip_post (post : List Char) :
    ∀ (pos a b : ℕ), b ≤ pos → charsOfRange post pos a b = [] := by
  induction post with
  | nil => intro pos a b _; simp [charsOfRange]
  | cons c post ih =>
    intro pos a b h
    have hc := charUtf8_length_pos c
    simp only [charsOfRange]
    rw [if_neg (by intro hcontra; omega)]
    exact ih _ a b (by omega)

/-- Extracting the middle component of a three-part concatenation. -/
theorem drop_take_middle (p q r : List ℕ) :
    ((p ++ q ++ r).drop p.length).take q.length = q := by
  rw [List.append_assoc, List.drop_left, List.take_left]

/-- When `str::get` succeeds it returns exactly the unchecked slice. -/
theorem str_get_eq_unchecked (s : List Char) (a b : ℕ) (h : (str_get s a b).isSome = true) :
    str_get s a b = some (str_get_unchecked s a b) := by
  by_cases hc : a ≤ b ∧ is_char_boundary s a = true ∧ is_char_boundary s b = true
  · unfold str_get str_get_unchecked
    rw [if_pos hc]
  · unfold str_get at h
    rw [if_neg hc] at h
    simp at h

/-- The unchecked byte slice over a three-part split of the backing
string, with boundary-aligned indices, is the middle part's encoding. -/
theorem str_get_unchecked_extract (sPre sMid sPost : List Char) (x y : ℕ)
    (hx : x = strLen sPre) (hy : y = x + strLen sMid) :
    str_get_unchecked (sPre ++ sMid ++ sPost) x y = utf8Encode sMid := by
  unfold str_get_unchecked
  subst hx
  subst hy
  rw [utf8Encode_append, utf8Encode_append]
  have h1 : strLen sPre + strLen sMid - strLen sPre = strLen sMid := by omega
  rw [h1]
  exact drop_take_middle _ _ _

/-- A `KString` with valid bounds decomposes its backing string into a
prefix, the viewed middle, and a suffix: the graphemes of the view are the
middle's scalars and `as_str` is the middle's UTF-8 bytes. -/
theorem kstring_view_decomp (ks : KString) (h : ks.bounds_valid) :
    ∃ pre mid post : List Char,
      ks.backing = pre ++ mid ++ post ∧
      strLen pre = ks.as_slice.start ∧
      strLen pre + strLen mid = ks.as_slice.stop ∧
      ks.graphemes = mid ∧
      ks.as_str = utf8Encode mid := by
  obtain ⟨inner⟩ := ks
  cases inner with
  | full string =>
    refine ⟨[], string, [], by show string = [] ++ string ++ []; simp, ?_, ?_, rfl, rfl⟩
    · simp [KString.as_slice, StringSlice.from_str, strLen_nil]
    · simp [KString.as_slice, StringSlice.from_str, strLen_nil]
  | slice sl =>
    obtain ⟨string, a, b⟩ := sl
    unfold KString.bounds_valid at h
    simp only [KString.as_slice] at h ⊢
    unfold str_get at h
    split at h
    case isFalse => simp at h
    case isTrue hcond =>
    obtain ⟨hab, hba, hbb⟩ := hcond
    obtain ⟨k1, hk1len, hk1⟩ := (is_char_boundary_iff _ _).mp hba
    obtain ⟨k2, hk2len, hk2⟩ := (is_char_boundary_iff _ _).mp hbb
    have hk12 : k1 ≤ k2 := by
      by_contra hlt
      have := strLen_take_lt string k2 k1 (by omega) hk1len
      omega
    have hmerge : string.take k1 ++ (string.take k2).drop k1 = string.take k2 := by
      have heq : string.take k1 = (string.take k2).take k1 := by
        rw [List.take_take]
        congr 1
        omega
      rw [heq, List.take_append_drop]
    have hmidlen : strLen ((string.take k2).drop k1) = b - a := by
      have h2 := strLen_append (string.take k1) ((string.take k2).drop k1)
      rw [hmerge] at h2
      omega
    refine ⟨string.take k1, (string.take k2).drop k1, string.drop k2, ?_, hk1, ?_, ?_, ?_⟩
    · show string = string.take k1 ++ (string.take k2).drop k1 ++ string.drop k2
      rw [hmerge, List.take_append_drop]
    · omega
    · show charsOfRange string 0 a b = _
      have hdecomp : string = string.take k1 ++ ((string.take k2).drop k1 ++ string.drop k2) := by
        conv_lhs => rw [← List.take_append_drop k2 string, ← hmerge]
        simp [List.append_assoc]
      conv_lhs => rw [hdecomp]
      rw [charsOfRange_skip_pre (string.take k1) _ 0 a b (by omega)]
      rw [charsOfRange_take_mid ((string.take k2).drop k1) _ _ a b (by omega)
        (by rw [hk1, hmidlen]; omega)]
      rw [charsOfRange_skip_post (string.drop k2) _ a b (by rw [hk1, hmidlen]; omega)]
      simp
    · show str_get_unchecked string a b = _
      have hdecomp : string = string.take k1 ++ (string.take k2).drop k1 ++ string.drop k2 := by
        rw [hmerge, List.take_append_drop]
      conv_lhs => rw [hdecomp]
      exact str_get_unchecked_extract _ _ _ a b hk1.symm (by omega)

/-- The shape of `pop_front` when a first grapheme exists: both results
are slices of the backing string split after the grapheme's bytes. -/
theorem pop_front_eq (ks : KString) (c : Char) (h : ks.graphemes.head? = some c) :
    ks.pop_front =
      (some ⟨.slice
        { string := ks.backing, start := ks.as_slice.start,
          stop := ks.as_slice.start + (charUtf8 c).length }⟩,
       ⟨.slice
        { string := ks.backing, start := ks.as_slice.start + (charUtf8 c).length,
          stop := ks.as_slice.stop }⟩) := by
  obtain ⟨inner⟩ := ks
  cases inner with
  | full string =>
    unfold KString.pop_front
    simp only [h]
    simp [KString.as_slice, KString.backing, StringSlice.from_str, StringSlice.split]
  | slice sl =>
    unfold KString.pop_front
    simp only [h]
    simp [KString.as_slice, KString.backing, StringSlice.split]

/-- The shape of `pop_back` when a last grapheme exists: both results are
slices of the backing string split before the grapheme's bytes. -/
theorem pop_back_eq (ks : KString) (c : Char) (h : ks.graphemes.getLast? = some c) :
    ks.pop_back =
      (some ⟨.slice
        { string := ks.backing,
          start := ks.as_slice.start + ((ks.as_slice.stop - ks.as_slice.start) -
            (charUtf8 c).length),
          stop := ks.as_slice.stop }⟩,
       ⟨.slice
        { string := ks.backing, start := ks.as_slice.start,
          stop := ks.as_slice.start + ((ks.as_slice.stop - ks.as_slice.start) -
            (charUtf8 c).length) }⟩) := by
  obtain ⟨inner⟩ := ks
  cases inner with
  | full string =>
    unfold KString.pop_back
    simp only [h]
    simp [KString.as_slice, KString.backing, StringSlice.from_str, StringSlice.split]
  | slice sl =>
    unfold KString.pop_back
    simp only [h]
    simp [KString.as_slice, KString.backing, StringSlice.split]

end Koto.StringRs

namespace Koto.StringRs

/-- Claim C10: for every `KString` (with the constructor-established bounds
invariant), `pop_front` returns `None` exactly when the string has no
graphemes, leaving it unchanged; otherwise it returns the first grapheme
and mutates the string to the remainder, with the popped grapheme's bytes
concatenated with the new contents equal to the original contents, and
both results sharing the original backing buffer; `pop_back` satisfies the
symmetric property for the last grapheme. -/
theorem koto_c10_pop (ks : KString) (h : ks.bounds_valid) :
    (ks.graphemes = [] ↔ ks.pop_front = (none, ks)) ∧
    (ks.graphemes = [] ↔ ks.pop_back = (none, ks)) ∧
    (∀ c cs, ks.graphemes = c :: cs →
      ∃ popped rest, ks.pop_front = (some popped, rest) ∧
        popped.as_str = charUtf8 c ∧ rest.as_str = utf8Encode cs ∧
        popped.as_str ++ rest.as_str = ks.as_str ∧
        popped.backing = ks.backing ∧ rest.backing = ks.backing) ∧
    (∀ c cs, ks.graphemes = cs ++ [c] →
      ∃ popped rest, ks.pop_back = (some popped, rest) ∧
        popped.as_str = charUtf8 c ∧ rest.as_str = utf8Encode cs ∧
        rest.as_str ++ popped.as_str = ks.as_str ∧
        popped.backing = ks.backing ∧ rest.backing = ks.backing) := by
  obtain ⟨pre, mid, post, hback, hpre, hmidlen, hgra, hstr⟩ := kstring_view_decomp ks h
  refine ⟨?_, ?_, ?_, ?_⟩
  · constructor
    · intro hg
      unfold KString.pop_front
      simp [hg]
    · intro hp
      by_contra hg
      obtain ⟨c, cs, hcc⟩ := List.exists_cons_of_ne_nil hg
      have hhead : ks.graphemes.head? = some c := by rw [hcc]; rfl
      have hpf := pop_front_eq ks c hhead
      rw [hpf] at hp
      simp at hp
  · constructor
    · intro hg
      unfold KString.pop_back
      simp [hg]
    · intro hp
      by_contra hg
      rcases List.eq_nil_or_concat' ks.graphemes with hnil | ⟨cs, c, hcc⟩
      · exact hg hnil
      · have hlast : ks.graphemes.getLast? = some c := by
          rw [hcc]
          simp
        have hpb := pop_back_eq ks c hlast
        rw [hpb] at hp
        simp at hp
  · intro c cs hg
    have hmid : mid = c :: cs := by rw [← hgra, hg]
    subst hmid
    have hhead : ks.graphemes.head? = some c := by rw [hg]; rfl
    have hpf := pop_front_eq ks c hhead
    have hb2 : ks.backing = pre ++ [c] ++ (cs ++ post) := by rw [hback]; simp
    have hb3 : ks.backing = (pre ++ [c]) ++ cs ++ post := by rw [hback]; simp
    have h1 : str_get_unchecked ks.backing ks.as_slice.start
        (ks.as_slice.start + (charUtf8 c).length) = charUtf8 c := by
      rw [hb2, str_get_unchecked_extract pre [c] (cs ++ post) _ _ hpre.symm
        (by rw [strLen_singleton]), utf8Encode_singleton]
    have h2 : str_get_unchecked ks.backing (ks.as_slice.start + (charUtf8 c).length)
        ks.as_slice.stop = utf8Encode cs := by
      have hx : ks.as_slice.start + (charUtf8 c).length = strLen (pre ++ [c]) := by
        rw [strLen_append, strLen_singleton]
        omega
      have hy : ks.as_slice.stop = ks.as_slice.start + (charUtf8 c).length + strLen cs := by
        rw [strLen_cons] at hmidlen
        omega
      rw [hb3, str_get_unchecked_extract (pre ++ [c]) cs post _ _ hx (by omega)]
    refine ⟨_, _, hpf, h1, h2, ?_, rfl, rfl⟩
    show str_get_unchecked ks.backing ks.as_slice.start
        (ks.as_slice.start + (charUtf8 c).length) ++
      str_get_unchecked ks.backing (ks.as_slice.start + (charUtf8 c).length)
        ks.as_slice.stop = ks.as_str
    rw [h1, h2, hstr, utf8Encode_cons]
  · intro c cs hg
    have hmid : mid = cs ++ [c] := by rw [← hgra, hg]
    subst hmid
    have hlast : ks.graphemes.getLast? = some c := by
      rw [hg]
      simp
    have hpb := pop_back_eq ks c hlast
    have hoff : (ks.as_slice.stop - ks.as_slice.start) - (charUtf8 c).length = strLen cs := by
      rw [strLen_append, strLen_singleton] at hmidlen
      omega
    have hb2 : ks.backing = (pre ++ cs) ++ [c] ++ post := by rw [hback]; simp
    have hb3 : ks.backing = pre ++ cs ++ ([c] ++ post) := by rw [hback]; simp
    have h1 : str_get_unchecked ks.backing
        (ks.as_slice.start + ((ks.as_slice.stop - ks.as_slice.start) - (charUtf8 c).length))
        ks.as_slice.stop = charUtf8 c := by
      have hx : ks.as_slice.start +
          ((ks.as_slice.stop - ks.as_slice.start) - (charUtf8 c).length) =
          strLen (pre ++ cs) := by
        rw [strLen_append, hoff]
        omega
      have hy : ks.as_slice.stop = ks.as_slice.start +
          ((ks.as_slice.stop - ks.as_slice.start) - (charUtf8 c).length) + strLen [c] := by
        rw [strLen_append, strLen_singleton] at hmidlen
        rw [strLen_singleton, hoff]
        omega
      rw [hb2, str_get_unchecked_extract (pre ++ cs) [c] post _ _ hx hy,
        utf8Encode_singleton]
    have h2 : str_get_unchecked ks.backing ks.as_slice.start
        (ks.as_slice.start + ((ks.as_slice.stop - ks.as_slice.start) -
          (charUtf8 c).length)) = utf8Encode cs := by
      rw [hb3, str_get_unchecked_extract pre cs ([c] ++ post) _ _ hpre.symm (by rw [hoff])]
    refine ⟨_, _, hpb, h1, h2, ?_, rfl, rfl⟩
    show str_get_unchecked ks.backing ks.as_slice.start
        (ks.as_slice.start + ((ks.as_slice.stop - ks.as_slice.start) -
          (charUtf8 c).length)) ++
      str_get_unchecked ks.backing
        (ks.as_slice.start + ((ks.as_slice.stop - ks.as_slice.start) - (charUtf8 c).length))
        ks.as_slice.stop = ks.as_str
    rw [h1, h2, hstr, utf8Encode_append, utf8Encode_singleton]

end Koto.StringRs

namespace Koto.StringRs

/-- Claim C7: `new_with_bounds` returns `None` exactly when `str::get`
rejects the byte range (not ordered, out of bounds, or not on code-point
boundaries), and `with_bounds` returns `None` exactly when, after
offsetting by the slice start, the range leaves the existing bounds or
`str::get` rejects it; for every slice either constructor produces, the
checked `str::get` of the stored bounds returns exactly the unchecked
slice `as_str` takes, so `as_str` is the exact substring selected by the
stored bounds. -/
theorem koto_c7_bounds_checked :
    (∀ (s : List Char) (a b : ℕ),
      (KString.new_with_bounds s a b).isSome = (str_get s a b).isSome ∧
      ∀ r, KString.new_with_bounds s a b = some r →
        r.backing = s ∧ r.as_slice.start = a ∧ r.as_slice.stop = b ∧
        str_get s a b = some r.as_str) ∧
    (∀ (ks : KString) (a b : ℕ),
      (ks.with_bounds a b = none ↔
        ¬ (b + ks.as_slice.start ≤ ks.as_slice.stop ∧
          (str_get ks.as_slice.string (a + ks.as_slice.start)
            (b + ks.as_slice.start)).isSome = true)) ∧
      ∀ r, ks.with_bounds a b = some r →
        r.backing = ks.as_slice.string ∧
        r.as_slice.start = a + ks.as_slice.start ∧
        r.as_slice.stop = b + ks.as_slice.start ∧
        r.as_slice.stop ≤ ks.as_slice.stop ∧
        str_get ks.as_slice.string r.as_slice.start r.as_slice.stop = some r.as_str) := by
  constructor
  · intro s a b
    constructor
    · by_cases hg : (str_get s a b).isSome = true
      · simp [KString.new_with_bounds, hg]
      · simp only [Bool.not_eq_true] at hg
        simp [KString.new_with_bounds, hg]
    · intro r hr
      by_cases hg : (str_get s a b).isSome = true
      · unfold KString.new_with_bounds at hr
        rw [if_pos hg] at hr
        obtain rfl := (Option.some.inj hr).symm
        refine ⟨rfl, rfl, rfl, ?_⟩
        exact str_get_eq_unchecked s a b hg
      · unfold KString.new_with_bounds at hr
        rw [if_neg hg] at hr
        simp at hr
  · intro ks a b
    constructor
    · by_cases hg : b + ks.as_slice.start ≤ ks.as_slice.stop ∧
          (str_get ks.as_slice.string (a + ks.as_slice.start)
            (b + ks.as_slice.start)).isSome = true
      · unfold KString.with_bounds
        rw [if_pos hg]
        simp [hg]
      · unfold KString.with_bounds
        rw [if_neg hg]
        simp [hg]
    · intro r hr
      by_cases hg : b + ks.as_slice.start ≤ ks.as_slice.stop ∧
          (str_get ks.as_slice.string (a + ks.as_slice.start)
            (b + ks.as_slice.start)).isSome = true
      · unfold KString.with_bounds at hr
        rw [if_pos hg] at hr
        obtain rfl := (Option.some.inj hr).symm
        refine ⟨rfl, rfl, rfl, hg.1, ?_⟩
        exact str_get_eq_unchecked _ _ _ hg.2
      · unfold KString.with_bounds at hr
        rw [if_neg hg] at hr
        simp at hr

/-- Witness for C7: `new_with_bounds helloChars 0 3` yields the `"hé"`
slice and `elloSlice.with_bounds 0 2` yields the `"é"` slice, each with
`str::get` of the stored bounds returning `as_str`. -/
theorem koto_c7_witness :
    (str_get helloChars 0 3 = some heSlice.as_str) ∧
    (eAcuteSlice.as_slice.start = 0 + elloSlice.as_slice.start ∧
     eAcuteSlice.as_slice.stop = 2 + elloSlice.as_slice.start ∧
     eAcuteSlice.as_slice.stop ≤ elloSlice.as_slice.stop ∧
     str_get elloSlice.as_slice.string eAcuteSlice.as_slice.start
       eAcuteSlice.as_slice.stop = some eAcuteSlice.as_str) := by
  constructor
  · exact ((koto_c7_bounds_checked.1 helloChars 0 3).2 heSlice (by decide)).2.2.2
  · have h := (koto_c7_bounds_checked.2 elloSlice 0 2).2 eAcuteSlice (by decide)
    exact ⟨h.2.1, h.2.2.1, h.2.2.2.1, h.2.2.2.2⟩

/-- Claim C8: string range indexing counts graphemes, not bytes: slicing
`"héllo"` from grapheme index 1 to the end (grapheme count 5) via
`with_grapheme_indices` yields exactly the `"éllo"` slice, whose byte
bounds 1..6 differ from the grapheme indices because é is two bytes. -/
theorem koto_c8_grapheme_slice :
    helloKString.grapheme_count = 5 ∧
    helloKString.with_grapheme_indices 1 5 = elloSlice ∧
    elloSlice.as_slice.start = 1 ∧ elloSlice.as_slice.stop = 6 ∧
    (helloKString.with_grapheme_indices 1 5).as_str = utf8Encode ['é', 'l', 'l', 'o'] := by
  refine ⟨by decide, by decide, by decide, by decide, by decide⟩

/-- Claim C9: `KString` equality holds exactly when the byte slices
selected by the bounds are equal — regardless of backing buffer or bounds
— and equal `KString`s hash identically, for every hasher, since the
hasher consumes only the slice view. -/
theorem koto_c9_eq_hash (a b : KString) (hasher : List ℕ → ℕ) :
    (KString.eq a b = true ↔ a.as_str = b.as_str) ∧
    (KString.eq a b = true → a.hashWith hasher = b.hashWith hasher) := by
  constructor
  · simp [KString.eq]
  · intro he
    have hs : a.as_str = b.as_str := by simpa [KString.eq] using he
    simp [KString.hashWith, hs]

/-- Witness for C9: `"abc"` as a full string and as a slice of the
distinct buffer `"xabc"` are equal and hash alike. -/
theorem koto_c9_witness :
    KString.eq abcSliceOfXabc abcFull = true ∧
    abcSliceOfXabc.backing ≠ abcFull.backing ∧
    KString.hashWith demoHasher abcSliceOfXabc = KString.hashWith demoHasher abcFull := by
  refine ⟨by decide, by decide, ?_⟩
  exact (koto_c9_eq_hash abcSliceOfXabc abcFull demoHasher).2 (by decide)

/-- Witness for C10: popping the front of the `"éllo"` slice of
`"héllo"` yields `"é"` and leaves `"llo"`, sharing the backing buffer. -/
theorem koto_c10_witness :
    ∃ popped rest, elloSlice.pop_front = (some popped, rest) ∧
      popped.as_str = charUtf8 'é' ∧ rest.as_str = utf8Encode ['l', 'l', 'o'] ∧
      popped.as_str ++ rest.as_str = elloSlice.as_str ∧
      popped.backing = elloSlice.backing ∧ rest.backing = elloSlice.backing :=
  (koto_c10_pop elloSlice (by decide)).2.2.1 'é' ['l', 'l', 'o'] (by decide)

end Koto.StringRs
